import Mathlib

/-!
Shallow embedding of the application-lifecycle engine of the
backend-destored repository: the Application and Project rows, the
Application model helper methods, ApplicationService
(getApplications, getApplicationById, evaluateApplication,
approveApplication, rejectApplication, withdrawApplication,
rejectOtherApplications, calculatePriorityScore) and
ProjectService.applyToProject, together with theorems checking the
specification's claims about them.

Database rows are modelled as records in lists; Sequelize queries
become list lookups and maps; thrown service errors become an
explicit error type; JavaScript truthiness on optional numeric and
string columns is modelled explicitly.  Timestamps are integral
milliseconds, decimals are rationals.
-/

namespace Destored

/-- Application.status enum values (model definition in the Application
model file). -/
inductive AppStatus
  | pending
  | under_review
  | accepted
  | rejected
  | withdrawn
  | expired
deriving DecidableEq, Repr

/-- Project.status values used by the code paths embedded here
(ProjectService checks the literal string "open";
ApplicationService.approveApplication writes "in_progress"). -/
inductive ProjStatus
  | «open»
  | in_progress
  | completed
  | cancelled
deriving DecidableEq, Repr

/-- JavaScript truthiness of an optional numeric column: null and 0 are
falsy, every other number is truthy. -/
def jsTruthyQ : Option ℚ → Bool
  | none => false
  | some q => !(q == 0)

/-- JavaScript truthiness of an optional text column: null and the empty
string are falsy. -/
def jsTruthyS : Option String → Bool
  | none => false
  | some s => !(s == "")

/-- One row of the applications table.  The JSONB metadata bag is
modelled by its keys actually written by the service layer
(final_negotiated_rate, rate_negotiation_notes, withdrawal_reason,
withdrawn_at). -/
structure Application where
  id : Nat
  professional_id : Nat
  project_id : Nat
  cover_letter : String
  proposed_rate : Option ℚ
  proposed_timeline : Option Nat
  availability_start : Option Int
  status : AppStatus
  priority_score : ℚ
  reviewed_at : Option Int
  reviewed_by : Option Nat
  rejection_reason : Option String
  client_feedback : Option String
  created_at : Int
  final_negotiated_rate : Option ℚ
  rate_negotiation_notes : Option String
  withdrawal_reason : Option String
  withdrawn_at : Option Int
deriving DecidableEq, Repr

/-- One row of the projects table, restricted to the columns the embedded
code paths read or write. -/
structure Project where
  id : Nat
  client_id : Nat
  status : ProjStatus
  assigned_professional_id : Option Nat
  budget_max : Option ℚ
  final_amount : Option ℚ
  application_deadline : Option Int
  application_count : Nat
deriving DecidableEq, Repr

/-- canBeWithdrawn of the Application model: status is pending or
under_review. -/
def Application.canBeWithdrawn (a : Application) : Bool :=
  a.status == .pending || a.status == .under_review

/-- canBeAccepted of the Application model: status is pending or
under_review. -/
def Application.canBeAccepted (a : Application) : Bool :=
  a.status == .pending || a.status == .under_review

/-- canBeEvaluated of the Application model: status is pending. -/
def Application.canBeEvaluated (a : Application) : Bool :=
  a.status == .pending

/-- getDaysOld of the Application model: floor of the elapsed
milliseconds since creation divided by one day. -/
def Application.getDaysOld (a : Application) (now : Int) : Int :=
  (now - a.created_at).fdiv 86400000

/-- The two database tables the embedded service layer operates on. -/
structure DB where
  apps : List Application
  projects : List Project
deriving DecidableEq, Repr

/-- Application.findByPk. -/
def DB.findApp (s : DB) (applicationId : Nat) : Option Application :=
  s.apps.find? (fun a => a.id == applicationId)

/-- Project.findByPk. -/
def DB.findProject (s : DB) (projectId : Nat) : Option Project :=
  s.projects.find? (fun p => p.id == projectId)

/-- An UPDATE of the single applications row with the given primary key;
unwritten columns keep their current value. -/
def DB.updateApp (s : DB) (applicationId : Nat)
    (f : Application → Application) : DB :=
  { s with apps := s.apps.map (fun a => if a.id == applicationId then f a else a) }

/-- An UPDATE of the single projects row with the given primary key. -/
def DB.updateProject (s : DB) (projectId : Nat)
    (f : Project → Project) : DB :=
  { s with projects := s.projects.map (fun p => if p.id == projectId then f p else p) }

/-- The request actor roles distinguished by the service layer. -/
inductive Role
  | professional
  | client
  | admin
deriving DecidableEq, Repr

/-- Errors thrown by the embedded service functions; each constructor is
one throw site (there is no ConflictAssignment anywhere in the source):
applicationNotFound, accessDenied, invalidState (the "cannot be
approved / evaluated / rejected / withdrawn in its current state"
family), notProjectClient, notAuthor, projectNotFound, projectNotOpen,
deadlineExpired, duplicateApplication, ownProject, and
missingAssociation for a join target the JavaScript would crash on. -/
inductive Err
  | applicationNotFound
  | accessDenied
  | invalidState
  | notProjectClient
  | notAuthor
  | projectNotFound
  | projectNotOpen
  | deadlineExpired
  | duplicateApplication
  | ownProject
  | missingAssociation
deriving DecidableEq, Repr

/-- canUserAccessApplication of ApplicationService: admins see
everything, professionals only their own rows, clients only rows of
their own projects (the project association must be loaded; reading
client_id of an absent project is the missingAssociation crash handled
by the caller). -/
def canUserAccessApplication (a : Application) (proj : Option Project)
    (userId : Nat) (userRole : Role) : Bool :=
  match userRole with
  | .admin => true
  | .professional => a.professional_id == userId
  | .client =>
    match proj with
    | some p => p.client_id == userId
    | none => false

/-- getApplicationById of ApplicationService: load the row together with
its project association, then enforce canUserAccessApplication.  For the
client role an absent project row makes the JavaScript crash reading
application.project.client_id; that is surfaced as missingAssociation. -/
def getApplicationById (s : DB) (applicationId userId : Nat)
    (userRole : Role) : Except Err (Application × Option Project) :=
  match s.findApp applicationId with
  | none => .error .applicationNotFound
  | some app =>
    let proj := s.findProject app.project_id
    match userRole with
    | .admin => .ok (app, proj)
    | .professional =>
      if app.professional_id == userId then .ok (app, proj)
      else .error .accessDenied
    | .client =>
      match proj with
      | none => .error .missingAssociation
      | some p =>
        if p.client_id == userId then .ok (app, proj)
        else .error .accessDenied

/-- Request body of the approve endpoint. -/
structure ApprovalData where
  client_feedback : Option String
  final_rate : Option ℚ
  rate_negotiation_notes : Option String
deriving DecidableEq, Repr

/-- Request body of the evaluate endpoint.  The optional metadata merge of
evaluationData.metadata is not modelled: the metadata bag is modelled by
the keys the service layer itself writes. -/
structure EvalData where
  priority_score : ℚ
  client_feedback : Option String
deriving DecidableEq, Repr

/-- Request body of the reject endpoint. -/
structure RejectData where
  reason : Option String
  client_feedback : Option String
deriving DecidableEq, Repr

/-- The columns approveApplication writes on the target application row:
status, reviewed_at, reviewed_by, optionally client_feedback and — when
final_rate is truthy and differs from the loaded proposed_rate — the
whole metadata object rebuilt by spreading the loaded metadata and
setting the negotiation keys.  The loaded argument is the instance read
at the start of the call; a is the row found at write time. -/
def applyApproveUpdate (d : ApprovalData) (approverId : Nat) (now : Int)
    (loaded a : Application) : Application :=
  let metaCond := jsTruthyQ d.final_rate && !(d.final_rate == loaded.proposed_rate)
  { a with
    status := .accepted
    reviewed_at := some now
    reviewed_by := some approverId
    client_feedback :=
      if jsTruthyS d.client_feedback then d.client_feedback else a.client_feedback
    final_negotiated_rate :=
      if metaCond then d.final_rate else a.final_negotiated_rate
    rate_negotiation_notes :=
      if metaCond then d.rate_negotiation_notes else a.rate_negotiation_notes
    withdrawal_reason :=
      if metaCond then loaded.withdrawal_reason else a.withdrawal_reason
    withdrawn_at :=
      if metaCond then loaded.withdrawn_at else a.withdrawn_at }

/-- The project columns approveApplication writes when assigning the
project: assigned_professional_id and final_amount come from the loaded
application instance (final_amount is final_rate when truthy, else the
loaded proposed_rate), and status becomes in_progress. -/
def applyProjectAssign (d : ApprovalData) (loaded : Application)
    (p : Project) : Project :=
  { p with
    assigned_professional_id := some loaded.professional_id
    status := .in_progress
    final_amount := if jsTruthyQ d.final_rate then d.final_rate else loaded.proposed_rate }

/-- The per-row effect of the rejectOtherApplications bulk UPDATE: a
row of the project, other than the accepted one, still pending or
under_review, becomes rejected with the fixed reason string; any other
row is untouched. -/
def rejectSiblingRow (projectId acceptedApplicationId rejectorId : Nat)
    (now : Int) (a : Application) : Application :=
  if a.project_id == projectId && !(a.id == acceptedApplicationId) &&
     (a.status == .pending || a.status == .under_review) then
    { a with
      status := .rejected
      reviewed_at := some now
      reviewed_by := some rejectorId
      rejection_reason := some "Se seleccionó otro profesional para el proyecto" }
  else a

/-- rejectOtherApplications of ApplicationService: a bulk UPDATE setting
every application of the project, other than the accepted one, whose
status is pending or under_review, to rejected with the given reviewer
and the fixed reason string. -/
def rejectOtherApplications (s : DB) (projectId acceptedApplicationId rejectorId : Nat)
    (now : Int) : DB :=
  { s with apps := s.apps.map (rejectSiblingRow projectId acceptedApplicationId rejectorId now) }

/-- approveApplication of ApplicationService, run as one sequential call:
load and access-check the row, require canBeAccepted, require the actor
to be the project client, then unconditionally update the application to
accepted, assign the project (no precondition on its current assignment
is checked anywhere) and bulk-reject the remaining pending/under_review
siblings.  No ConflictAssignment outcome exists. -/
def approveApplication (s : DB) (applicationId : Nat) (d : ApprovalData)
    (approverId : Nat) (now : Int) : Except Err DB :=
  match getApplicationById s applicationId approverId .client with
  | .error e => .error e
  | .ok (app, projOpt) =>
    if !app.canBeAccepted then .error .invalidState
    else
      match projOpt with
      | none => .error .missingAssociation
      | some proj =>
        if !(proj.client_id == approverId) then .error .notProjectClient
        else
          let s1 := s.updateApp applicationId (applyApproveUpdate d approverId now app)
          let s2 := s1.updateProject app.project_id (applyProjectAssign d app)
          .ok (rejectOtherApplications s2 app.project_id applicationId approverId now)

/-- The columns evaluateApplication writes: the supplied
priority_score, status under_review, the reviewer, and optionally the
client feedback. -/
def applyEvalUpdate (d : EvalData) (evaluatorId : Nat) (now : Int)
    (a : Application) : Application :=
  { a with
    priority_score := d.priority_score
    status := .under_review
    reviewed_by := some evaluatorId
    reviewed_at := some now
    client_feedback :=
      if jsTruthyS d.client_feedback then d.client_feedback else a.client_feedback }

/-- evaluateApplication of ApplicationService.  The guard is
canBeAccepted — not the model's own canBeEvaluated — so an application
already under_review can be evaluated again. -/
def evaluateApplication (s : DB) (applicationId : Nat) (d : EvalData)
    (evaluatorId : Nat) (now : Int) : Except Err DB :=
  match getApplicationById s applicationId evaluatorId .client with
  | .error e => .error e
  | .ok (app, _) =>
    if !app.canBeAccepted then .error .invalidState
    else .ok (s.updateApp applicationId (applyEvalUpdate d evaluatorId now))

/-- The columns rejectApplication writes: status rejected, the
reviewer, the reason (defaulted when falsy) and optionally the client
feedback. -/
def applyRejectUpdate (d : RejectData) (rejectorId : Nat) (now : Int)
    (a : Application) : Application :=
  { a with
    status := .rejected
    reviewed_at := some now
    reviewed_by := some rejectorId
    rejection_reason :=
      some (if jsTruthyS d.reason then d.reason.getD "" else "No especificado")
    client_feedback :=
      if jsTruthyS d.client_feedback then d.client_feedback else a.client_feedback }

/-- rejectApplication of ApplicationService. -/
def rejectApplication (s : DB) (applicationId : Nat) (d : RejectData)
    (rejectorId : Nat) (now : Int) : Except Err DB :=
  match getApplicationById s applicationId rejectorId .client with
  | .error e => .error e
  | .ok (app, projOpt) =>
    if !(app.status == .pending || app.status == .under_review) then .error .invalidState
    else
      match projOpt with
      | none => .error .missingAssociation
      | some proj =>
        if !(proj.client_id == rejectorId) then .error .notProjectClient
        else .ok (s.updateApp applicationId (applyRejectUpdate d rejectorId now))

/-- The columns withdrawApplication writes: status withdrawn and the
metadata withdrawal keys. -/
def applyWithdrawUpdate (reason : Option String) (now : Int)
    (a : Application) : Application :=
  { a with
    status := .withdrawn
    withdrawal_reason :=
      some (if jsTruthyS reason then reason.getD "" else "No especificado")
    withdrawn_at := some now }

/-- withdrawApplication of ApplicationService: the author professional
moves the row to withdrawn and records the reason in metadata; no
reviewed_at or reviewed_by is written. -/
def withdrawApplication (s : DB) (applicationId : Nat) (reason : Option String)
    (professionalId : Nat) (now : Int) : Except Err DB :=
  match getApplicationById s applicationId professionalId .professional with
  | .error e => .error e
  | .ok (app, _) =>
    if !app.canBeWithdrawn then .error .invalidState
    else if !(app.professional_id == professionalId) then .error .notAuthor
    else .ok (s.updateApp applicationId (applyWithdrawUpdate reason now))

/-- Request body of the apply endpoint (ProjectService.applyToProject). -/
structure ApplicationData where
  cover_letter : String
  proposed_rate : Option ℚ
  proposed_timeline : Option Nat
  availability_start : Option Int
deriving DecidableEq, Repr

/-- The row Application.create inserts for applyToProject: the request
fields, status pending (column default) and priority_score 50 (the
beforeCreate hook), with the database-generated primary key. -/
def newApplication (projectId professionalId : Nat) (d : ApplicationData)
    (newId : Nat) (now : Int) : Application :=
  { id := newId
    professional_id := professionalId
    project_id := projectId
    cover_letter := d.cover_letter
    proposed_rate := d.proposed_rate
    proposed_timeline := d.proposed_timeline
    availability_start := d.availability_start
    status := .pending
    priority_score := 50
    reviewed_at := none
    reviewed_by := none
    rejection_reason := none
    client_feedback := none
    created_at := now
    final_negotiated_rate := none
    rate_negotiation_notes := none
    withdrawal_reason := none
    withdrawn_at := none }

/-- applyToProject of ProjectService: require the project to exist and be
open, the application deadline (when set) not to have passed, no earlier
application by the same professional for the project (in any status),
and the applicant not to be the project client; then create the row with
status pending (column default) and priority_score 50 (the beforeCreate
hook) and increment the project's application_count.  newId models the
database-generated primary key. -/
def applyToProject (s : DB) (projectId professionalId : Nat)
    (d : ApplicationData) (newId : Nat) (now : Int) : Except Err DB :=
  match s.findProject projectId with
  | none => .error .projectNotFound
  | some project =>
    if !(project.status == .«open») then .error .projectNotOpen
    else if (match project.application_deadline with
             | some dl => decide (now > dl)
             | none => false) then .error .deadlineExpired
    else
      match s.apps.find? (fun a =>
          a.project_id == projectId && a.professional_id == professionalId) with
      | some _ => .error .duplicateApplication
      | none =>
        if project.client_id == professionalId then .error .ownProject
        else
          let s1 : DB :=
            { s with apps := s.apps ++ [newApplication projectId professionalId d newId now] }
          .ok (s1.updateProject projectId (fun p =>
            { p with application_count := p.application_count + 1 }))

/-- The professionals profile row as read by calculatePriorityScore. -/
structure ProfessionalProfile where
  experience_years : ℚ
  completion_rate : Option ℚ
deriving DecidableEq, Repr

/-- External data the scorer reads about a professional user: the
optional professionalProfile row, and the outcome of
professional.getAverageRating() — none models the caught error branch,
and a returned 0 (no reviews) is falsy and skipped. -/
structure ScoreEnv where
  profile : Nat → Option ProfessionalProfile
  averageRating : Nat → Option ℚ

/-- Math.min on two rationals. -/
def jsMin (a b : ℚ) : ℚ := if a ≤ b then a else b

/-- Math.max on two rationals. -/
def jsMax (a b : ℚ) : ℚ := if a ≤ b then b else a

/-- The score arithmetic of calculatePriorityScore: base 50, capped
experience bonus, rating bonus over 3 stars, completion-rate bonus, a
rate-competitiveness bonus read from the loaded project association, a
staleness penalty past the first day, clamped to 0..100.  All optional
inputs go through JavaScript truthiness. -/
def computeScore (profile : Option ProfessionalProfile) (averageRating : Option ℚ)
    (proposed_rate : Option ℚ) (project : Option Project) (daysOld : Int) : ℚ :=
  let score : ℚ := 50
  let score := match profile with
    | none => score
    | some professional =>
      let score := score + jsMin (professional.experience_years * 2) 20
      let score := score +
        (if jsTruthyQ averageRating then (averageRating.getD 0 - 3) * 5 else 0)
      let score := score +
        (if jsTruthyQ professional.completion_rate then
          professional.completion_rate.getD 0 * (1 / 10) else 0)
      score
  let rateBonus : ℚ :=
    match project, proposed_rate with
    | some proj, some rate =>
      match proj.budget_max with
      | some bmax =>
        if !(rate == 0) && !(bmax == 0) then
          let rateRatio := rate / bmax
          if rateRatio ≤ 8 / 10 then 10
          else if rateRatio ≤ 9 / 10 then 5
          else 0
        else 0
      | none => 0
    | _, _ => 0
  let score := score + rateBonus
  let score := score - (if daysOld > 1 then ((daysOld : ℚ) - 1) * 5 else 0)
  jsMax 0 (jsMin 100 score)

/-- The single column calculatePriorityScore writes back. -/
def applyScoreUpdate (score : ℚ) (a : Application) : Application :=
  { a with priority_score := score }

/-- calculatePriorityScore of ApplicationService.  The findByPk include
list loads only the professional and its professionalProfile — the
project association is not included, so application.project is undefined
at the rate-competitiveness branch and none is passed for it.  The only
write is the priority_score column of the target row; a missing row
returns null and leaves the database untouched. -/
def calculatePriorityScore (s : DB) (env : ScoreEnv) (applicationId : Nat)
    (now : Int) : Option ℚ × DB :=
  match s.findApp applicationId with
  | none => (none, s)
  | some app =>
    let score := computeScore (env.profile app.professional_id)
      (env.averageRating app.professional_id) app.proposed_rate none
      (app.getDaysOld now)
    (some score, s.updateApp applicationId (applyScoreUpdate score))

/-- The filters accepted by getApplications. -/
structure AppFilters where
  status : Option AppStatus
  project_id : Option Nat
  professional_id : Option Nat
  date_from : Option Int
  date_to : Option Int
  rate_min : Option ℚ
  rate_max : Option ℚ
deriving Repr

/-- Filters with no field set. -/
def AppFilters.none : AppFilters :=
  ⟨Option.none, Option.none, Option.none, Option.none, Option.none, Option.none, Option.none⟩

/-- The whereClause built by getApplications: the role scoping comes
first (professionals are hard-scoped to their own professional_id and
their professional_id filter is ignored; admins and clients may filter
by professional_id), then the optional status, project, date-range and
proposed-rate-range filters.  A null proposed_rate never matches a rate
bound, as in SQL. -/
def matchesWhere (filters : AppFilters) (userRole : Role) (userId : Nat)
    (a : Application) : Bool :=
  (match userRole with
   | .professional => a.professional_id == userId
   | _ => true) &&
  (match filters.status with
   | some st => a.status == st
   | none => true) &&
  (match filters.project_id with
   | some pid => a.project_id == pid
   | none => true) &&
  (match userRole, filters.professional_id with
   | .professional, _ => true
   | _, some pr => a.professional_id == pr
   | _, none => true) &&
  (match filters.date_from with
   | some t => decide (a.created_at ≥ t)
   | none => true) &&
  (match filters.date_to with
   | some t => decide (a.created_at ≤ t)
   | none => true) &&
  (match filters.rate_min with
   | some r =>
     match a.proposed_rate with
     | some pr => decide (pr ≥ r)
     | none => false
   | none => true) &&
  (match filters.rate_max with
   | some r =>
     match a.proposed_rate with
     | some pr => decide (pr ≤ r)
     | none => false
   | none => true)

/-- The include clause of getApplications: for the client role the
project join carries where client_id = userId with required set to true,
an inner join keeping only applications of the client's projects; other
roles place no condition on the joins. -/
def matchesInclude (s : DB) (userRole : Role) (userId : Nat)
    (a : Application) : Bool :=
  match userRole with
  | .client =>
    match s.findProject a.project_id with
    | some p => p.client_id == userId
    | none => false
  | _ => true

/-- The ORDER BY of getApplications: priority_score descending, then
created_at descending. -/
def AppOrder (a b : Application) : Prop :=
  b.priority_score < a.priority_score ∨
    (a.priority_score = b.priority_score ∧ b.created_at ≤ a.created_at)

instance : DecidableRel AppOrder := fun a b => by
  unfold AppOrder; infer_instance

/-- getApplications of ApplicationService, reduced to the rows the
findAndCountAll query returns: the applications matching the whereClause
and the include joins, ordered by priority_score descending with
created_at descending as tie-break, offset by (page-1)*limit and capped
at limit rows.  The subsequent per-row formatting keeps professional_id,
project_id, status, priority_score and created_at unchanged. -/
def getApplications (s : DB) (filters : AppFilters) (page limit : Nat)
    (userRole : Role) (userId : Nat) : List Application :=
  let rows := s.apps.filter (fun a =>
    matchesWhere filters userRole userId a && matchesInclude s userRole userId a)
  let sorted := rows.insertionSort AppOrder
  (sorted.drop ((page - 1) * limit)).take limit

instance {e a : Type} [DecidableEq e] [DecidableEq a] : DecidableEq (Except e a) := fun x y =>
  match x, y with
  | .ok u, .ok v =>
    if h : u = v then .isTrue (by rw [h])
    else .isFalse (fun hh => by cases hh; exact h rfl)
  | .ok _, .error _ => .isFalse (fun h => Except.noConfusion h)
  | .error _, .ok _ => .isFalse (fun h => Except.noConfusion h)
  | .error u, .error v =>
    if h : u = v then .isTrue (by rw [h])
    else .isFalse (fun hh => by cases hh; exact h rfl)

/-- The program counter of one in-flight approveApplication call, one
phase per awaited statement of the source: the combined load and
validation reads, the application UPDATE, the project UPDATE, the bulk
sibling rejection, and completion carrying the call's outcome. -/
inductive ApprovePC
  | start
  | writeApp
  | writeProject
  | rejectSiblings
  | finished (r : Except Err Unit)
deriving DecidableEq, Repr

/-- One in-flight approveApplication call: its arguments, the
application and project instances loaded at the start (none before the
load phase ran), and the program counter. -/
structure ApproveThread where
  applicationId : Nat
  d : ApprovalData
  approverId : Nat
  now : Int
  loaded : Option (Application × Project)
  pc : ApprovePC
deriving DecidableEq, Repr

/-- A fresh approveApplication call about to run. -/
def ApproveThread.init (applicationId : Nat) (d : ApprovalData)
    (approverId : Nat) (now : Int) : ApproveThread :=
  ⟨applicationId, d, approverId, now, none, .start⟩

/-- One database round-trip of an in-flight approveApplication call.
The load phase performs getApplicationById and the synchronous
canBeAccepted and project-client validations; the three write phases
replay the source's three awaited writes, each reading only the
database and the instance loaded at the start — no phase re-checks any
precondition, and no phase conditions the project write on the project
being unassigned. -/
def approveStep (s : DB) (t : ApproveThread) : DB × ApproveThread :=
  match t.pc with
  | .start =>
    (match getApplicationById s t.applicationId t.approverId .client with
     | .error e => (s, { t with pc := .finished (.error e) })
     | .ok (app, projOpt) =>
       if !app.canBeAccepted then (s, { t with pc := .finished (.error .invalidState) })
       else
         match projOpt with
         | none => (s, { t with pc := .finished (.error .missingAssociation) })
         | some proj =>
           if !(proj.client_id == t.approverId) then
             (s, { t with pc := .finished (.error .notProjectClient) })
           else (s, { t with loaded := some (app, proj), pc := .writeApp }))
  | .writeApp =>
    (match t.loaded with
     | none => (s, { t with pc := .finished (.error .missingAssociation) })
     | some (app, _) =>
       (s.updateApp t.applicationId (applyApproveUpdate t.d t.approverId t.now app),
        { t with pc := .writeProject }))
  | .writeProject =>
    (match t.loaded with
     | none => (s, { t with pc := .finished (.error .missingAssociation) })
     | some (app, _) =>
       (s.updateProject app.project_id (applyProjectAssign t.d app),
        { t with pc := .rejectSiblings }))
  | .rejectSiblings =>
    (match t.loaded with
     | none => (s, { t with pc := .finished (.error .missingAssociation) })
     | some (app, _) =>
       (rejectOtherApplications s app.project_id t.applicationId t.approverId t.now,
        { t with pc := .finished (.ok ()) }))
  | .finished _ => (s, t)

/-- Run two concurrent approveApplication calls under an explicit
schedule: true steps the first call, false the second. -/
def runTwo (s : DB) (t1 t2 : ApproveThread) : List Bool → DB × ApproveThread × ApproveThread
  | [] => (s, t1, t2)
  | b :: rest =>
    if b then
      let (s', t1') := approveStep s t1
      runTwo s' t1' t2 rest
    else
      let (s', t2') := approveStep s t2
      runTwo s' t1 t2' rest

/-- A service call as the HTTP layer sees it: the database after the
call together with the typed outcome; a thrown error leaves the
database as it was. -/
def runApprove (s : DB) (applicationId : Nat) (d : ApprovalData)
    (approverId : Nat) (now : Int) : DB × Except Err Unit :=
  match approveApplication s applicationId d approverId now with
  | .ok s' => (s', .ok ())
  | .error e => (s, .error e)

/-- One successful core operation of the application lifecycle engine:
submit (with a database-fresh primary key), evaluate, approve, reject,
withdraw, or a score recomputation.  A call that throws leaves the
database unchanged, so error outcomes need no step. -/
inductive Step (env : ScoreEnv) : DB → DB → Prop
  | submit {s s' : DB} (projectId professionalId : Nat) (d : ApplicationData)
      (newId : Nat) (now : Int)
      (hfresh : ∀ a ∈ s.apps, a.id ≠ newId)
      (h : applyToProject s projectId professionalId d newId now = .ok s') :
      Step env s s'
  | evaluate {s s' : DB} (applicationId : Nat) (d : EvalData)
      (evaluatorId : Nat) (now : Int)
      (h : evaluateApplication s applicationId d evaluatorId now = .ok s') :
      Step env s s'
  | approve {s s' : DB} (applicationId : Nat) (d : ApprovalData)
      (approverId : Nat) (now : Int)
      (h : approveApplication s applicationId d approverId now = .ok s') :
      Step env s s'
  | reject {s s' : DB} (applicationId : Nat) (d : RejectData)
      (rejectorId : Nat) (now : Int)
      (h : rejectApplication s applicationId d rejectorId now = .ok s') :
      Step env s s'
  | withdraw {s s' : DB} (applicationId : Nat) (reason : Option String)
      (professionalId : Nat) (now : Int)
      (h : withdrawApplication s applicationId reason professionalId now = .ok s') :
      Step env s s'
  | recompute {s : DB} (applicationId : Nat) (now : Int) :
      Step env s (calculatePriorityScore s env applicationId now).2

/-- Reflexive-transitive closure of Step. -/
inductive Reachable (env : ScoreEnv) : DB → DB → Prop
  | refl (s : DB) : Reachable env s s
  | tail {s t u : DB} (h : Reachable env s t) (hs : Step env t u) : Reachable env s u

/-- An initial database: the applications table is empty (rows are only
ever created by submit); projects are arbitrary. -/
def DB.Init (s : DB) : Prop := s.apps = []

instance : IsTrans Application AppOrder := by
  constructor
  intro a b c hab hbc
  rcases hab with h1 | ⟨h1, h1'⟩ <;> rcases hbc with h2 | ⟨h2, h2'⟩
  · exact Or.inl (lt_trans h2 h1)
  · exact Or.inl (h2 ▸ h1)
  · exact Or.inl (h1 ▸ h2)
  · exact Or.inr ⟨h1.trans h2, le_trans h2' h1'⟩

instance : IsTotal Application AppOrder := by
  constructor
  intro a b
  rcases lt_trichotomy a.priority_score b.priority_score with h | h | h
  · exact Or.inr (Or.inl h)
  · rcases le_total a.created_at b.created_at with h' | h'
    · exact Or.inr (Or.inr ⟨h.symm, h'⟩)
    · exact Or.inl (Or.inr ⟨h, h'⟩)
  · exact Or.inl (Or.inl h)

/-- The applications table has pairwise distinct primary keys. -/
def AppsNodup (s : DB) : Prop := (s.apps.map (fun a => a.id)).Nodup

/-- At most one application row per (professional, project) pair. -/
def PairUnique (s : DB) : Prop :=
  ∀ a ∈ s.apps, ∀ b ∈ s.apps,
    a.professional_id = b.professional_id → a.project_id = b.project_id → a.id = b.id

/-- At most one accepted application per project. -/
def AcceptedUnique (s : DB) : Prop :=
  ∀ a ∈ s.apps, ∀ b ∈ s.apps,
    a.status = .accepted → b.status = .accepted → a.project_id = b.project_id → a.id = b.id

/-- Once a project has an accepted application, no sibling is still
pending or under_review. -/
def AcceptedClosed (s : DB) : Prop :=
  ∀ a ∈ s.apps, a.status = .accepted →
    ∀ b ∈ s.apps, b.project_id = a.project_id → b.id ≠ a.id →
      b.status ≠ .pending ∧ b.status ≠ .under_review

/-- Once a project has an accepted application, its project row is no
longer open (approve moves it to in_progress and nothing reopens it). -/
def AcceptedProjClosed (s : DB) : Prop :=
  ∀ a ∈ s.apps, a.status = .accepted →
    ∀ p ∈ s.projects, p.id = a.project_id → p.status ≠ .«open»

/-- The inductive invariant of the lifecycle engine. -/
def Inv (s : DB) : Prop :=
  AppsNodup s ∧ PairUnique s ∧ AcceptedUnique s ∧ AcceptedClosed s ∧ AcceptedProjClosed s

/-- An application row with its ranking cache blanked, for stating which
columns a write may touch. -/
def erasePriorityScore (a : Application) : Application := { a with priority_score := 0 }

/-- A score environment with no profile data, used by concrete runs. -/
def emptyEnv : ScoreEnv := ⟨fun _ => Option.none, fun _ => Option.none⟩

/-- A concrete application row used by the example databases below. -/
def mkApp (id professional_id project_id : Nat) (st : AppStatus)
    (created : Int) (rate : Option ℚ) : Application :=
  { id := id, professional_id := professional_id, project_id := project_id,
    cover_letter := "Tengo amplia experiencia en proyectos similares y gran interes.",
    proposed_rate := rate, proposed_timeline := none,
    availability_start := none, status := st, priority_score := 50,
    reviewed_at := none, reviewed_by := none, rejection_reason := none,
    client_feedback := none, created_at := created, final_negotiated_rate := none,
    rate_negotiation_notes := none, withdrawal_reason := none, withdrawn_at := none }

/-- A concrete open project owned by client 1 with budget_max 1000. -/
def proj0 : Project :=
  { id := 100, client_id := 1, status := .«open», assigned_professional_id := none,
    budget_max := some 1000, final_amount := none, application_deadline := none,
    application_count := 2 }

/-- An approve request body with no optional field set. -/
def noApproval : ApprovalData := ⟨none, none, none⟩

/-- Database for the C9 witness: one application by professional 10 on
project 100, which client 1 owns. -/
def C9db : DB :=
  { apps := [mkApp 1 10 100 .pending 0 Option.none], projects := [proj0] }

/-- Filters naming a different professional (77), which the
professional-role scoping must ignore. -/
def C9filters : AppFilters := { AppFilters.none with professional_id := some 77 }

/-- Database for the C1 counterexample: project 100 is already assigned
to professional 99 and in progress, yet application 1 is still pending. -/
def C1db : DB :=
  { apps := [mkApp 1 10 100 .pending 0 (some 800)],
    projects := [{ proj0 with assigned_professional_id := some 99, status := .in_progress }] }

/-- Database for the C3 counterexample: two pending applications for the
same open unassigned project. -/
def C3db : DB :=
  { apps := [mkApp 1 10 100 .pending 0 (some 800),
             mkApp 2 20 100 .pending 0 (some 900)],
    projects := [proj0] }

/-- Database for the C4 failing input: application 1 is already
under_review. -/
def C4db : DB :=
  { apps := [mkApp 1 10 100 .under_review 0 Option.none], projects := [proj0] }

/-- Database for the C5 failing input: the spec's worked example —
proposed rate 800, project budget_max 1000, submitted today. -/
def C5db : DB :=
  { apps := [mkApp 1 10 100 .pending 0 (some 800)], projects := [proj0] }

/-- Professional 10's track record for the C5 worked example: 5 years of
experience, completion rate 90, average rating 4.5. -/
def C5env : ScoreEnv :=
  { profile := fun uid => if uid = 10 then some ⟨5, some 90⟩ else Option.none,
    averageRating := fun uid => if uid = 10 then some (9 / 2) else Option.none }

/-- Database for the C7 counterexample: project 100 is open, nobody has
applied, but the application deadline (10) has passed by now = 20. -/
def C7db : DB :=
  { apps := [], projects := [{ proj0 with application_deadline := some 10 }] }

/-- Database for the C8 witness: application 1 was withdrawn. -/
def C8db : DB :=
  { apps := [mkApp 1 10 100 .withdrawn 0 Option.none], projects := [proj0] }

/-- A successful findApp yields a member of the table with the requested
primary key. -/
theorem findApp_eq_some {s : DB} {i : Nat} {a : Application}
    (h : s.findApp i = some a) : a ∈ s.apps ∧ a.id = i := by
  unfold DB.findApp at h
  refine ⟨List.mem_of_find?_eq_some h, ?_⟩
  have := List.find?_some h
  simpa using this

/-- A successful findProject yields a member of the table with the
requested primary key. -/
theorem findProject_eq_some {s : DB} {i : Nat} {p : Project}
    (h : s.findProject i = some p) : p ∈ s.projects ∧ p.id = i := by
  unfold DB.findProject at h
  refine ⟨List.mem_of_find?_eq_some h, ?_⟩
  have := List.find?_some h
  simpa using this

/-- Looking up a row after an id-preserving single-row UPDATE returns
the previous row, transformed when it is the updated one. -/
theorem findApp_updateApp (s : DB) (i j : Nat) (f : Application → Application)
    (hf : ∀ a, (f a).id = a.id) :
    (s.updateApp i f).findApp j =
      (s.findApp j).map (fun a => if a.id == i then f a else a) := by
  unfold DB.updateApp DB.findApp
  rw [List.find?_map]
  have hp : ((fun a => a.id == j) ∘ fun a => if a.id == i then f a else a) =
      (fun (a : Application) => a.id == j) := by
    funext a
    by_cases h : a.id == i
    · simp only [Function.comp_apply, if_pos h, hf]
    · simp only [Function.comp_apply, if_neg h]
  rw [hp]

/-- Looking up a project after an id-preserving single-row UPDATE. -/
theorem findProject_updateProject (s : DB) (i j : Nat) (f : Project → Project)
    (hf : ∀ p, (f p).id = p.id) :
    (s.updateProject i f).findProject j =
      (s.findProject j).map (fun p => if p.id == i then f p else p) := by
  unfold DB.updateProject DB.findProject
  rw [List.find?_map]
  have hp : ((fun p => p.id == j) ∘ fun p => if p.id == i then f p else p) =
      (fun (p : Project) => p.id == j) := by
    funext p
    by_cases h : p.id == i
    · simp only [Function.comp_apply, if_pos h, hf]
    · simp only [Function.comp_apply, if_neg h]
  rw [hp]

/-- updateApp leaves the projects table alone. -/
theorem updateApp_projects (s : DB) (i : Nat) (f : Application → Application) :
    (s.updateApp i f).projects = s.projects := rfl

/-- updateProject leaves the applications table alone. -/
theorem updateProject_apps (s : DB) (i : Nat) (f : Project → Project) :
    (s.updateProject i f).apps = s.apps := rfl

/-- rejectOtherApplications leaves the projects table alone. -/
theorem rejectOtherApplications_projects (s : DB) (pid aid rid : Nat) (now : Int) :
    (rejectOtherApplications s pid aid rid now).projects = s.projects := rfl

/-- rejectSiblingRow never changes the row's primary key. -/
theorem rejectSiblingRow_id (pid aid rid : Nat) (now : Int) (a : Application) :
    (rejectSiblingRow pid aid rid now a).id = a.id := by
  unfold rejectSiblingRow; split <;> rfl

/-- rejectSiblingRow never changes the row's professional. -/
theorem rejectSiblingRow_professional (pid aid rid : Nat) (now : Int) (a : Application) :
    (rejectSiblingRow pid aid rid now a).professional_id = a.professional_id := by
  unfold rejectSiblingRow; split <;> rfl

/-- rejectSiblingRow never changes the row's project. -/
theorem rejectSiblingRow_project (pid aid rid : Nat) (now : Int) (a : Application) :
    (rejectSiblingRow pid aid rid now a).project_id = a.project_id := by
  unfold rejectSiblingRow; split <;> rfl

/-- rejectSiblingRow never changes the row's creation time. -/
theorem rejectSiblingRow_created (pid aid rid : Nat) (now : Int) (a : Application) :
    (rejectSiblingRow pid aid rid now a).created_at = a.created_at := by
  unfold rejectSiblingRow; split <;> rfl

/-- The application update of approve: key fields. -/
theorem applyApproveUpdate_fields (d : ApprovalData) (u : Nat) (now : Int)
    (L a : Application) :
    (applyApproveUpdate d u now L a).id = a.id ∧
    (applyApproveUpdate d u now L a).professional_id = a.professional_id ∧
    (applyApproveUpdate d u now L a).project_id = a.project_id ∧
    (applyApproveUpdate d u now L a).status = .accepted := ⟨rfl, rfl, rfl, rfl⟩

/-- The application update of evaluate: key fields. -/
theorem applyEvalUpdate_fields (d : EvalData) (u : Nat) (now : Int) (a : Application) :
    (applyEvalUpdate d u now a).id = a.id ∧
    (applyEvalUpdate d u now a).professional_id = a.professional_id ∧
    (applyEvalUpdate d u now a).project_id = a.project_id ∧
    (applyEvalUpdate d u now a).status = .under_review := ⟨rfl, rfl, rfl, rfl⟩

/-- The application update of reject: key fields. -/
theorem applyRejectUpdate_fields (d : RejectData) (u : Nat) (now : Int) (a : Application) :
    (applyRejectUpdate d u now a).id = a.id ∧
    (applyRejectUpdate d u now a).professional_id = a.professional_id ∧
    (applyRejectUpdate d u now a).project_id = a.project_id ∧
    (applyRejectUpdate d u now a).status = .rejected := ⟨rfl, rfl, rfl, rfl⟩

/-- The application update of withdraw: key fields. -/
theorem applyWithdrawUpdate_fields (reason : Option String) (now : Int) (a : Application) :
    (applyWithdrawUpdate reason now a).id = a.id ∧
    (applyWithdrawUpdate reason now a).professional_id = a.professional_id ∧
    (applyWithdrawUpdate reason now a).project_id = a.project_id ∧
    (applyWithdrawUpdate reason now a).status = .withdrawn := ⟨rfl, rfl, rfl, rfl⟩

/-- The score write touches no key field and no status. -/
theorem applyScoreUpdate_fields (q : ℚ) (a : Application) :
    (applyScoreUpdate q a).id = a.id ∧
    (applyScoreUpdate q a).professional_id = a.professional_id ∧
    (applyScoreUpdate q a).project_id = a.project_id ∧
    (applyScoreUpdate q a).status = a.status := ⟨rfl, rfl, rfl, rfl⟩

/-- The project update of approve: key fields. -/
theorem applyProjectAssign_fields (d : ApprovalData) (L : Application) (p : Project) :
    (applyProjectAssign d L p).id = p.id ∧
    (applyProjectAssign d L p).client_id = p.client_id ∧
    (applyProjectAssign d L p).status = .in_progress ∧
    (applyProjectAssign d L p).assigned_professional_id = some L.professional_id :=
  ⟨rfl, rfl, rfl, rfl⟩

/-- The rejectOtherApplications bulk write finds a row through the
lookup unchanged in id. -/
theorem findApp_rejectOtherApplications (s : DB) (pid aid rid : Nat) (now : Int) (j : Nat) :
    (rejectOtherApplications s pid aid rid now).findApp j =
      (s.findApp j).map (rejectSiblingRow pid aid rid now) := by
  unfold rejectOtherApplications DB.findApp
  rw [List.find?_map]
  have hp : ((fun a => a.id == j) ∘ rejectSiblingRow pid aid rid now) =
      (fun (a : Application) => a.id == j) := by
    funext a
    simp only [Function.comp_apply, rejectSiblingRow_id]
  rw [hp]

/-- A Bool guard of the shape the services use, known to pass. -/
theorem ite_skip {α : Type} {c : Bool} (h : c = true) (x y : α) :
    (if (!c) = true then x else y) = y := by simp [h]

/-- A Bool guard of the shape the services use, known to fail. -/
theorem ite_take {α : Type} {c : Bool} (h : c = false) (x y : α) :
    (if (!c) = true then x else y) = x := by simp [h]

/-- What a successful client-role getApplicationById implies. -/
theorem getApplicationById_client_ok {s : DB} {aid uid : Nat}
    {A : Application} {po : Option Project}
    (h : getApplicationById s aid uid .client = .ok (A, po)) :
    s.findApp aid = some A ∧
      ∃ p, po = some p ∧ s.findProject A.project_id = some p ∧ p.client_id = uid := by
  unfold getApplicationById at h
  cases hfa : s.findApp aid with
  | none => rw [hfa] at h; simp at h
  | some B =>
    rw [hfa] at h
    simp only at h
    cases hfp : s.findProject B.project_id with
    | none => rw [hfp] at h; simp at h
    | some p =>
      rw [hfp] at h
      simp only at h
      by_cases hc : p.client_id == uid
      · rw [if_pos hc] at h
        simp only [Except.ok.injEq, Prod.mk.injEq] at h
        obtain ⟨hBA, hpo⟩ := h
        subst hBA
        exact ⟨rfl, p, hpo.symm, hfp, by simpa using hc⟩
      · rw [if_neg hc] at h
        simp at h

/-- Client-role getApplicationById on known lookups. -/
theorem getApplicationById_client_eq {s : DB} {aid uid : Nat}
    {A : Application} {p : Project}
    (hfa : s.findApp aid = some A)
    (hfp : s.findProject A.project_id = some p)
    (hc : p.client_id = uid) :
    getApplicationById s aid uid .client = .ok (A, some p) := by
  unfold getApplicationById
  rw [hfa]
  simp only
  rw [hfp]
  simp [hc]

/-- What a successful professional-role getApplicationById implies. -/
theorem getApplicationById_professional_ok {s : DB} {aid uid : Nat}
    {A : Application} {po : Option Project}
    (h : getApplicationById s aid uid .professional = .ok (A, po)) :
    s.findApp aid = some A ∧ A.professional_id = uid := by
  unfold getApplicationById at h
  cases hfa : s.findApp aid with
  | none => rw [hfa] at h; simp at h
  | some B =>
    rw [hfa] at h
    simp only at h
    by_cases hp : B.professional_id == uid
    · rw [if_pos hp] at h
      simp only [Except.ok.injEq, Prod.mk.injEq] at h
      obtain ⟨hBA, _⟩ := h
      subst hBA
      exact ⟨rfl, by simpa using hp⟩
    · rw [if_neg hp] at h
      simp at h

/-- What a successful approveApplication call did: the target was
found, passed canBeAccepted, the project belongs to the approver, and
the result is exactly the three unconditional writes — no check of the
project's current assignment appears anywhere. -/
theorem approveApplication_ok {s s2 : DB} {aid uid : Nat} {d : ApprovalData} {now : Int}
    (h : approveApplication s aid d uid now = .ok s2) :
    ∃ A p, s.findApp aid = some A ∧ A.canBeAccepted = true ∧
      s.findProject A.project_id = some p ∧ p.client_id = uid ∧
      s2 = rejectOtherApplications
        ((s.updateApp aid (applyApproveUpdate d uid now A)).updateProject
          A.project_id (applyProjectAssign d A)) A.project_id aid uid now := by
  unfold approveApplication at h
  cases hg : getApplicationById s aid uid .client with
  | error e => rw [hg] at h; simp at h
  | ok pr =>
    obtain ⟨A, po⟩ := pr
    rw [hg] at h
    simp only at h
    obtain ⟨hfa, p, hpo, hfp, hc⟩ := getApplicationById_client_ok hg
    subst hpo
    by_cases hacc : A.canBeAccepted
    · rw [ite_skip hacc] at h
      simp only at h
      rw [ite_skip (by simp [hc])] at h
      simp only [Except.ok.injEq] at h
      exact ⟨A, p, hfa, hacc, hfp, hc, h.symm⟩
    · rw [ite_take (Bool.not_eq_true _ ▸ hacc)] at h
      simp at h

/-- approveApplication on known lookups, computed. -/
theorem approveApplication_eq {s : DB} {aid uid : Nat} {A : Application} {p : Project}
    (d : ApprovalData) (now : Int)
    (hfa : s.findApp aid = some A)
    (hfp : s.findProject A.project_id = some p)
    (hc : p.client_id = uid)
    (hacc : A.canBeAccepted = true) :
    approveApplication s aid d uid now = .ok (rejectOtherApplications
      ((s.updateApp aid (applyApproveUpdate d uid now A)).updateProject
        A.project_id (applyProjectAssign d A)) A.project_id aid uid now) := by
  unfold approveApplication
  rw [getApplicationById_client_eq hfa hfp hc]
  simp only
  rw [ite_skip hacc]
  rw [ite_skip (by simp [hc])]

/-- An approveApplication call on a target that fails canBeAccepted
throws the invalid-state error. -/
theorem approveApplication_invalid {s : DB} {aid uid : Nat} {A : Application} {p : Project}
    (d : ApprovalData) (now : Int)
    (hfa : s.findApp aid = some A)
    (hfp : s.findProject A.project_id = some p)
    (hc : p.client_id = uid)
    (hacc : A.canBeAccepted = false) :
    approveApplication s aid d uid now = .error .invalidState := by
  unfold approveApplication
  rw [getApplicationById_client_eq hfa hfp hc]
  simp only
  rw [ite_take hacc]

/-- What a successful evaluateApplication call did. -/
theorem evaluateApplication_ok {s s2 : DB} {aid uid : Nat} {d : EvalData} {now : Int}
    (h : evaluateApplication s aid d uid now = .ok s2) :
    ∃ A p, s.findApp aid = some A ∧ A.canBeAccepted = true ∧
      s.findProject A.project_id = some p ∧ p.client_id = uid ∧
      s2 = s.updateApp aid (applyEvalUpdate d uid now) := by
  unfold evaluateApplication at h
  cases hg : getApplicationById s aid uid .client with
  | error e => rw [hg] at h; simp at h
  | ok pr =>
    obtain ⟨A, po⟩ := pr
    rw [hg] at h
    simp only at h
    obtain ⟨hfa, p, hpo, hfp, hc⟩ := getApplicationById_client_ok hg
    subst hpo
    by_cases hacc : A.canBeAccepted
    · rw [ite_skip hacc] at h
      simp only [Except.ok.injEq] at h
      exact ⟨A, p, hfa, hacc, hfp, hc, h.symm⟩
    · rw [ite_take (Bool.not_eq_true _ ▸ hacc)] at h
      simp at h

/-- What a successful rejectApplication call did. -/
theorem rejectApplication_ok {s s2 : DB} {aid uid : Nat} {d : RejectData} {now : Int}
    (h : rejectApplication s aid d uid now = .ok s2) :
    ∃ A p, s.findApp aid = some A ∧
      (A.status == .pending || A.status == .under_review) = true ∧
      s.findProject A.project_id = some p ∧ p.client_id = uid ∧
      s2 = s.updateApp aid (applyRejectUpdate d uid now) := by
  unfold rejectApplication at h
  cases hg : getApplicationById s aid uid .client with
  | error e => rw [hg] at h; simp at h
  | ok pr =>
    obtain ⟨A, po⟩ := pr
    rw [hg] at h
    simp only at h
    obtain ⟨hfa, p, hpo, hfp, hc⟩ := getApplicationById_client_ok hg
    subst hpo
    by_cases hst : (A.status == .pending || A.status == .under_review)
    · rw [ite_skip hst] at h
      simp only at h
      rw [ite_skip (by simp [hc])] at h
      simp only [Except.ok.injEq] at h
      exact ⟨A, p, hfa, hst, hfp, hc, h.symm⟩
    · rw [ite_take (Bool.not_eq_true _ ▸ hst)] at h
      simp at h

/-- What a successful withdrawApplication call did. -/
theorem withdrawApplication_ok {s s2 : DB} {aid uid : Nat} {reason : Option String} {now : Int}
    (h : withdrawApplication s aid reason uid now = .ok s2) :
    ∃ A, s.findApp aid = some A ∧ A.canBeWithdrawn = true ∧
      A.professional_id = uid ∧
      s2 = s.updateApp aid (applyWithdrawUpdate reason now) := by
  unfold withdrawApplication at h
  cases hg : getApplicationById s aid uid .professional with
  | error e => rw [hg] at h; simp at h
  | ok pr =>
    obtain ⟨A, po⟩ := pr
    rw [hg] at h
    simp only at h
    obtain ⟨hfa, hown⟩ := getApplicationById_professional_ok hg
    by_cases hw : A.canBeWithdrawn
    · rw [ite_skip hw] at h
      rw [ite_skip (by simp [hown])] at h
      simp only [Except.ok.injEq] at h
      exact ⟨A, hfa, hw, hown, h.symm⟩
    · rw [ite_take (Bool.not_eq_true _ ▸ hw)] at h
      simp at h

/-- What a successful applyToProject call did: the project exists, is
open, its deadline has not passed, the professional has no prior
application for it, is not its client, and the new pending row is
appended with the project's application_count incremented. -/
theorem applyToProject_ok {s s2 : DB} {pid prof newId : Nat}
    {d : ApplicationData} {now : Int}
    (h : applyToProject s pid prof d newId now = .ok s2) :
    ∃ project, s.findProject pid = some project ∧
      project.status = .«open» ∧
      s.apps.find? (fun a => a.project_id == pid && a.professional_id == prof) = none ∧
      project.client_id ≠ prof ∧
      s2 = (DB.mk (s.apps ++ [newApplication pid prof d newId now]) s.projects).updateProject
        pid (fun p => { p with application_count := p.application_count + 1 }) := by
  unfold applyToProject at h
  cases hfp : s.findProject pid with
  | none => rw [hfp] at h; simp at h
  | some project =>
    rw [hfp] at h
    simp only at h
    by_cases hopen : project.status == ProjStatus.«open»
    · rw [ite_skip hopen] at h
      split at h
      · simp at h
      · cases hdup : s.apps.find? (fun a => a.project_id == pid && a.professional_id == prof) with
        | some B => rw [hdup] at h; simp at h
        | none =>
          rw [hdup] at h
          simp only at h
          by_cases hown : project.client_id == prof
          · rw [if_pos hown] at h; simp at h
          · rw [if_neg hown] at h
            simp only [Except.ok.injEq] at h
            exact ⟨project, rfl, by simpa using hopen, rfl, by simpa using hown, h.symm⟩
    · rw [ite_take (Bool.not_eq_true _ ▸ hopen)] at h
      simp at h

/-- The database side of calculatePriorityScore, by cases on the
lookup. -/
theorem calculatePriorityScore_db (s : DB) (env : ScoreEnv) (aid : Nat) (now : Int) :
    (calculatePriorityScore s env aid now).2 =
      match s.findApp aid with
      | none => s
      | some app => s.updateApp aid (applyScoreUpdate (computeScore
          (env.profile app.professional_id) (env.averageRating app.professional_id)
          app.proposed_rate none (app.getDaysOld now))) := by
  unfold calculatePriorityScore
  cases hfa : s.findApp aid <;> simp

/-- C5: on the spec's worked example — 5 years of experience, average
rating 4.5, completion rate 90, proposed rate 800 against budget_max
1000, submitted today — calculatePriorityScore returns 76.5, not the
claimed 86.5: its query does not load the project association, so the
rate-competitiveness branch never runs.  The same arithmetic with the
project actually supplied yields exactly the claimed 86.5, isolating the
missing include as the sole divergence. -/
theorem claim_C5_score_example_misses_rate_bonus :
    (calculatePriorityScore C5db C5env 1 0).1 = some (153 / 2) ∧
    computeScore (some ⟨5, some 90⟩) (some (9 / 2)) (some 800) (some proj0) 0 = 173 / 2 ∧
    (153 / 2 : ℚ) ≠ 173 / 2 := by
  refine ⟨?_, ?_, by norm_num⟩
  · have h : C5db.findApp 1 = some (mkApp 1 10 100 .pending 0 (some 800)) := rfl
    unfold calculatePriorityScore
    rw [h]
    unfold computeScore
    norm_num [jsMin, jsMax, jsTruthyQ, C5env, mkApp, Application.getDaysOld, Int.fdiv]
  · unfold computeScore
    norm_num [jsMin, jsMax, jsTruthyQ, proj0]

/-- C4: the §4.1 table has no under_review → under_review edge, so
re-evaluating an application already under review must fail with
InvalidStateTransition; but evaluateApplication guards with
canBeAccepted instead of the model's own canBeEvaluated, so the call
succeeds and the row stays under_review with its review fields
overwritten. -/
theorem claim_C4_reevaluation_of_under_review_succeeds :
    (evaluateApplication C4db 1 ⟨70, Option.none⟩ 1 5).toOption.map
        (fun s => (s.findApp 1).map (fun a => a.status)) =
      some (some .under_review) ∧
    Application.canBeEvaluated (mkApp 1 10 100 .under_review 0 Option.none) = false := by
  constructor
  · decide
  · decide

/-- C1 counterexample: project 100 already has professional 99 assigned
and is in progress, yet approve on pending application 1 by the owning
client returns success — not ConflictAssignment — marks the application
accepted and overwrites the project's assignment to professional 10. -/
theorem claim_C1_counterexample :
    (approveApplication C1db 1 noApproval 1 5).toOption.map
        (fun s => ((s.findApp 1).map (fun a => a.status),
                   (s.findProject 100).map (fun p => p.assigned_professional_id))) =
      some (some .accepted, some (some 10)) := by
  decide

/-- C3 counterexample: interleaving approve(1) and approve(2) on two
pending applications for the same open project — both calls load and
validate before either writes — ends with both calls succeeding and
both applications accepted for project 100. -/
theorem claim_C3_counterexample :
    (runTwo C3db (ApproveThread.init 1 noApproval 1 5)
        (ApproveThread.init 2 noApproval 1 6)
        [true, false, true, true, true, false, false, false]).2.1.pc =
      .finished (.ok ()) ∧
    (runTwo C3db (ApproveThread.init 1 noApproval 1 5)
        (ApproveThread.init 2 noApproval 1 6)
        [true, false, true, true, true, false, false, false]).2.2.pc =
      .finished (.ok ()) ∧
    ((runTwo C3db (ApproveThread.init 1 noApproval 1 5)
        (ApproveThread.init 2 noApproval 1 6)
        [true, false, true, true, true, false, false, false]).1.apps.filter
      (fun a => a.project_id == 100 && a.status == .accepted)).length = 2 := by
  refine ⟨by decide, by decide, by decide⟩

/-- C7 counterexample: project 100 is open and has no application at
all, so the claim's "otherwise" branch demands creation; but the
application deadline has passed, and applyToProject fails with the
deadline error — an outcome the claim does not allow. -/
theorem claim_C7_counterexample :
    applyToProject C7db 100 10 ⟨"carta de presentacion suficientemente larga para el modelo", some 800, Option.none, Option.none⟩ 1 20 =
      .error .deadlineExpired ∧
    C7db.apps = [] ∧
    (C7db.findProject 100).map (fun p => p.status) = some .«open» ∧
    Err.deadlineExpired ≠ .duplicateApplication ∧
    Err.deadlineExpired ≠ .projectNotOpen := by
  refine ⟨by decide, rfl, by decide, by decide, by decide⟩

/-- C8: approve on an application already withdrawn, called by the
owning client, throws the invalid-state error (canBeAccepted fails) and
returns before any write: the database — project assignment, status,
final_amount and every sibling — is exactly as it was. -/
theorem claim_C8_approve_withdrawn_fails (s : DB) (aid uid : Nat)
    (d : ApprovalData) (now : Int) (A : Application) (p : Project)
    (hfa : s.findApp aid = some A) (hst : A.status = .withdrawn)
    (hfp : s.findProject A.project_id = some p) (hc : p.client_id = uid) :
    runApprove s aid d uid now = (s, .error .invalidState) := by
  unfold runApprove
  rw [approveApplication_invalid d now hfa hfp hc
    (by simp [Application.canBeAccepted, hst])]

/-- C8 witness: the concrete withdrawn application 1 of C8db. -/
theorem claim_C8_witness :
    runApprove C8db 1 noApproval 1 5 = (C8db, .error .invalidState) :=
  claim_C8_approve_withdrawn_fails C8db 1 1 noApproval 5
    (mkApp 1 10 100 .withdrawn 0 Option.none) proj0 rfl rfl rfl rfl

/-- C1 amended: approve consults nothing about the project's current
assignment: whenever the target application is pending or under_review
and the actor is the project's client, the call succeeds — it can never
return ConflictAssignment, no such error exists — the application is
marked accepted, and the project's assignment fields are overwritten to
the applicant regardless of any professional already assigned. -/
theorem claim_C1_amended_approve_ignores_assignment (s : DB) (aid uid : Nat)
    (d : ApprovalData) (now : Int) (A : Application) (p : Project)
    (hfa : s.findApp aid = some A) (hacc : A.canBeAccepted = true)
    (hfp : s.findProject A.project_id = some p) (hc : p.client_id = uid) :
    ∃ s2, approveApplication s aid d uid now = .ok s2 ∧
      s2.findApp aid = some (applyApproveUpdate d uid now A A) ∧
      s2.findProject A.project_id = some (applyProjectAssign d A p) ∧
      (applyApproveUpdate d uid now A A).status = .accepted ∧
      (applyProjectAssign d A p).assigned_professional_id = some A.professional_id := by
  obtain ⟨hAmem, hAid⟩ := findApp_eq_some hfa
  obtain ⟨hpmem, hpid⟩ := findProject_eq_some hfp
  refine ⟨_, approveApplication_eq d now hfa hfp hc hacc, ?_, ?_, rfl, rfl⟩
  · rw [findApp_rejectOtherApplications]
    have h1 : ((s.updateApp aid (applyApproveUpdate d uid now A)).updateProject
        A.project_id (applyProjectAssign d A)).findApp aid =
        (s.updateApp aid (applyApproveUpdate d uid now A)).findApp aid := rfl
    rw [h1, findApp_updateApp s aid aid (applyApproveUpdate d uid now A) (fun a => rfl), hfa]
    simp only [Option.map_some']
    rw [if_pos (by simp [hAid])]
    unfold rejectSiblingRow
    rw [if_neg (by simp [applyApproveUpdate])]
  · have h2 : (rejectOtherApplications ((s.updateApp aid (applyApproveUpdate d uid now A)).updateProject
        A.project_id (applyProjectAssign d A)) A.project_id aid uid now).findProject A.project_id =
        ((s.updateApp aid (applyApproveUpdate d uid now A)).updateProject
          A.project_id (applyProjectAssign d A)).findProject A.project_id := rfl
    rw [h2, findProject_updateProject (s.updateApp aid (applyApproveUpdate d uid now A))
      A.project_id A.project_id (applyProjectAssign d A) (fun q => rfl)]
    have h3 : (s.updateApp aid (applyApproveUpdate d uid now A)).findProject A.project_id =
        s.findProject A.project_id := rfl
    rw [h3, hfp]
    simp only [Option.map_some']
    rw [if_pos (by simp [hpid])]

/-- C1 amended witness: the C1db instance — project already assigned to
professional 99 — instantiating the amended theorem. -/
theorem claim_C1_amended_witness :
    ∃ s2, approveApplication C1db 1 noApproval 1 5 = .ok s2 ∧
      s2.findApp 1 = some (applyApproveUpdate noApproval 1 5
        (mkApp 1 10 100 .pending 0 (some 800)) (mkApp 1 10 100 .pending 0 (some 800))) ∧
      s2.findProject 100 = some (applyProjectAssign noApproval
        (mkApp 1 10 100 .pending 0 (some 800))
        { proj0 with assigned_professional_id := some 99, status := .in_progress }) ∧
      (applyApproveUpdate noApproval 1 5 (mkApp 1 10 100 .pending 0 (some 800))
        (mkApp 1 10 100 .pending 0 (some 800))).status = .accepted ∧
      (applyProjectAssign noApproval (mkApp 1 10 100 .pending 0 (some 800))
        { proj0 with assigned_professional_id := some 99, status := .in_progress
          }).assigned_professional_id = some 10 :=
  claim_C1_amended_approve_ignores_assignment C1db 1 1 noApproval 5
    (mkApp 1 10 100 .pending 0 (some 800))
    { proj0 with assigned_professional_id := some 99, status := .in_progress }
    rfl rfl rfl rfl

/-- C3 amended: without interleaving — one approve call completing
before the other starts — exactly one call wins and the loser fails
with the invalid-state error, never with ConflictAssignment, which does
not exist; and (second and third conjuncts) an interleaved schedule of
the same two calls can end with both applications accepted. -/
theorem claim_C3_amended_sequential_one_winner :
    (∀ (s : DB) (A B : Application) (p : Project) (d1 d2 : ApprovalData)
        (uid : Nat) (now1 now2 : Int),
      s.findApp A.id = some A → s.findApp B.id = some B → B.id ≠ A.id →
      B.project_id = A.project_id → s.findProject A.project_id = some p →
      p.client_id = uid → A.canBeAccepted = true → B.canBeAccepted = true →
      ∃ s2, approveApplication s A.id d1 uid now1 = .ok s2 ∧
        approveApplication s2 B.id d2 uid now2 = .error .invalidState) ∧
    ((runTwo C3db (ApproveThread.init 1 noApproval 1 5)
        (ApproveThread.init 2 noApproval 1 6)
        [true, false, true, true, true, false, false, false]).1.findApp 1).map
      (fun a => a.status) = some .accepted ∧
    ((runTwo C3db (ApproveThread.init 1 noApproval 1 5)
        (ApproveThread.init 2 noApproval 1 6)
        [true, false, true, true, true, false, false, false]).1.findApp 2).map
      (fun a => a.status) = some .accepted := by
  refine ⟨?_, by decide, by decide⟩
  intro s A B p d1 d2 uid now1 now2 hfaA hfaB hBA hBproj hfp hc haccA haccB
  have hstB := haccB
  unfold Application.canBeAccepted at hstB
  refine ⟨_, approveApplication_eq d1 now1 hfaA hfp hc haccA, ?_⟩
  have hfindB : (rejectOtherApplications
      ((s.updateApp A.id (applyApproveUpdate d1 uid now1 A)).updateProject
        A.project_id (applyProjectAssign d1 A)) A.project_id A.id uid now1).findApp B.id =
      some (rejectSiblingRow A.project_id A.id uid now1 B) := by
    rw [findApp_rejectOtherApplications]
    have h1 : ((s.updateApp A.id (applyApproveUpdate d1 uid now1 A)).updateProject
        A.project_id (applyProjectAssign d1 A)).findApp B.id =
        (s.updateApp A.id (applyApproveUpdate d1 uid now1 A)).findApp B.id := rfl
    rw [h1, findApp_updateApp s A.id B.id (applyApproveUpdate d1 uid now1 A) (fun a => rfl),
      hfaB]
    simp only [Option.map_some']
    rw [if_neg (by simp [hBA])]
  have hBrej : (rejectSiblingRow A.project_id A.id uid now1 B).status = .rejected := by
    unfold rejectSiblingRow
    rw [if_pos (by simp [hBproj, hBA, hstB])]
  have hfp2 : (rejectOtherApplications
      ((s.updateApp A.id (applyApproveUpdate d1 uid now1 A)).updateProject
        A.project_id (applyProjectAssign d1 A)) A.project_id A.id uid now1).findProject
      ((rejectSiblingRow A.project_id A.id uid now1 B).project_id) =
      some (applyProjectAssign d1 A p) := by
    rw [rejectSiblingRow_project, hBproj]
    have h2 : (rejectOtherApplications
        ((s.updateApp A.id (applyApproveUpdate d1 uid now1 A)).updateProject
          A.project_id (applyProjectAssign d1 A)) A.project_id A.id uid now1).findProject
        A.project_id =
        ((s.updateApp A.id (applyApproveUpdate d1 uid now1 A)).updateProject
          A.project_id (applyProjectAssign d1 A)).findProject A.project_id := rfl
    rw [h2, findProject_updateProject (s.updateApp A.id (applyApproveUpdate d1 uid now1 A))
      A.project_id A.project_id (applyProjectAssign d1 A) (fun q => rfl)]
    have h3 : (s.updateApp A.id (applyApproveUpdate d1 uid now1 A)).findProject A.project_id =
        s.findProject A.project_id := rfl
    rw [h3, hfp]
    simp only [Option.map_some']
    rw [if_pos (by simp [(findProject_eq_some hfp).2])]
  exact approveApplication_invalid d2 now2 hfindB hfp2
    (by simp [applyProjectAssign, hc])
    (by simp [Application.canBeAccepted, hBrej])

/-- C3 witness: the two pending applications of C3db, approved one
after the other by client 1: the first call succeeds, the second fails
with the invalid-state error. -/
theorem claim_C3_amended_witness :
    ∃ s2, approveApplication C3db 1 noApproval 1 5 = .ok s2 ∧
      approveApplication s2 2 noApproval 1 6 = .error .invalidState := by
  have h := claim_C3_amended_sequential_one_winner.1 C3db
    (mkApp 1 10 100 .pending 0 (some 800)) (mkApp 2 20 100 .pending 0 (some 900))
    proj0 noApproval noApproval 1 5 6 rfl rfl (by decide) rfl rfl rfl rfl rfl
  exact h

/-- Rows returned by getApplications come from the applications table
and pass both the whereClause and the include joins. -/
theorem mem_getApplications {s : DB} {filters : AppFilters} {page limit : Nat}
    {role : Role} {uid : Nat} {a : Application}
    (ha : a ∈ getApplications s filters page limit role uid) :
    a ∈ s.apps ∧
      (matchesWhere filters role uid a && matchesInclude s role uid a) = true := by
  unfold getApplications at ha
  have h1 := List.mem_of_mem_take ha
  have h2 := List.mem_of_mem_drop h1
  have h3 := (List.perm_insertionSort AppOrder _).mem_iff.mp h2
  exact ⟨(List.mem_filter.mp h3).1, (List.mem_filter.mp h3).2⟩

/-- C10: for every role and every filter combination, the rows the list
query returns are sorted by priority_score descending with created_at
descending as tie-break — the embedded ORDER BY. -/
theorem claim_C10_list_ordering (s : DB) (filters : AppFilters) (page limit : Nat)
    (role : Role) (uid : Nat) :
    List.Sorted AppOrder (getApplications s filters page limit role uid) := by
  unfold getApplications
  have hs : List.Sorted AppOrder (List.insertionSort AppOrder
      (s.apps.filter (fun a =>
        matchesWhere filters role uid a && matchesInclude s role uid a))) :=
    List.sorted_insertionSort AppOrder _
  have hsub := (List.take_sublist limit ((List.insertionSort AppOrder
      (s.apps.filter (fun a =>
        matchesWhere filters role uid a && matchesInclude s role uid a))).drop
        ((page - 1) * limit))).trans
    (List.drop_sublist ((page - 1) * limit) (List.insertionSort AppOrder
      (s.apps.filter (fun a =>
        matchesWhere filters role uid a && matchesInclude s role uid a))))
  exact List.Pairwise.sublist hsub hs

/-- C9: the list scoping is enforced server-side: every row a
professional-role call returns carries the caller's professional_id even
when the filters name a different professional (the professional_id
filter is ignored for that role), and every row a client-role call
returns belongs to a project whose client is the caller. -/
theorem claim_C9_list_scoping (s : DB) (filters : AppFilters)
    (page limit uid : Nat) :
    (∀ a ∈ getApplications s filters page limit .professional uid,
      a.professional_id = uid) ∧
    (∀ a ∈ getApplications s filters page limit .client uid,
      ∃ p, s.findProject a.project_id = some p ∧ p.client_id = uid) := by
  constructor
  · intro a ha
    obtain ⟨-, hmw⟩ := mem_getApplications ha
    rw [Bool.and_eq_true] at hmw
    have hw := hmw.1
    unfold matchesWhere at hw
    simp only [Bool.and_eq_true] at hw
    have := hw.1.1.1.1.1.1.1
    simpa using this
  · intro a ha
    obtain ⟨-, hmw⟩ := mem_getApplications ha
    rw [Bool.and_eq_true] at hmw
    have hi := hmw.2
    unfold matchesInclude at hi
    simp only at hi
    cases hfp : s.findProject a.project_id with
    | none => rw [hfp] at hi; simp at hi
    | some p =>
      rw [hfp] at hi
      exact ⟨p, rfl, by simpa using hi⟩

/-- C9 witness: professional 10 listing with filters naming professional
77 still only sees its own row; client 1 listing sees a row of its own
project. -/
theorem claim_C9_witness :
    (mkApp 1 10 100 .pending 0 Option.none).professional_id = 10 ∧
    (∃ p, C9db.findProject (mkApp 1 10 100 .pending 0 Option.none).project_id = some p ∧
      p.client_id = 1) :=
  ⟨(claim_C9_list_scoping C9db C9filters 1 10 10).1
      (mkApp 1 10 100 .pending 0 Option.none) (by decide),
   (claim_C9_list_scoping C9db AppFilters.none 1 10 1).2
      (mkApp 1 10 100 .pending 0 Option.none) (by decide)⟩

/-- Mapping a projection that the row update preserves over an updated
table gives the same list as over the original. -/
theorem updateApp_map_eq {β : Type} (s : DB) (i : Nat) (f : Application → Application)
    (proj : Application → β) (hp : ∀ a, proj (f a) = proj a) :
    (s.updateApp i f).apps.map proj = s.apps.map proj := by
  unfold DB.updateApp
  simp only [List.map_map]
  congr 1
  funext a
  by_cases h : a.id == i
  · simp only [Function.comp_apply, if_pos h, hp]
  · simp only [Function.comp_apply, if_neg h]

/-- Two score writes to the same row collapse to the second one. -/
theorem updateApp_score_collapse (s : DB) (i : Nat) (q r : ℚ) :
    (s.updateApp i (applyScoreUpdate q)).updateApp i (applyScoreUpdate r) =
      s.updateApp i (applyScoreUpdate r) := by
  unfold DB.updateApp
  simp only [List.map_map]
  have hfun : ((fun a => if a.id == i then applyScoreUpdate r a else a) ∘
      fun a => if a.id == i then applyScoreUpdate q a else a) =
      (fun (a : Application) => if a.id == i then applyScoreUpdate r a else a) := by
    funext a
    by_cases h : a.id == i
    · simp only [Function.comp_apply, if_pos h]
      rw [if_pos (by simpa [applyScoreUpdate] using h)]
      rfl
    · simp only [Function.comp_apply, if_neg h, if_neg h]
  rw [hfun]

/-- One equation for calculatePriorityScore. -/
theorem calculatePriorityScore_eq (s : DB) (env : ScoreEnv) (aid : Nat) (now : Int) :
    calculatePriorityScore s env aid now =
      match s.findApp aid with
      | none => (Option.none, s)
      | some app =>
        (some (computeScore (env.profile app.professional_id)
            (env.averageRating app.professional_id) app.proposed_rate none
            (app.getDaysOld now)),
         s.updateApp aid (applyScoreUpdate (computeScore (env.profile app.professional_id)
            (env.averageRating app.professional_id) app.proposed_rate none
            (app.getDaysOld now)))) := by
  unfold calculatePriorityScore
  cases s.findApp aid <;> rfl

/-- The clamp at the end of the score arithmetic keeps any rational in
the 0..100 band. -/
theorem jsClamp_bounds (x : ℚ) :
    0 ≤ jsMax 0 (jsMin 100 x) ∧ jsMax 0 (jsMin 100 x) ≤ 100 := by
  unfold jsMax jsMin
  split_ifs with h1 h2 h3 <;> constructor <;> linarith

/-- C6: score recomputation is deterministic and idempotent — running it
again on the state it produced returns the identical score and state —
the score always lies in [0, 100], and the only column it ever writes is
the target row's priority_score: statuses, every other application
column and the whole projects table are untouched. -/
theorem claim_C6_recompute_deterministic_pure :
    (∀ (s : DB) (env : ScoreEnv) (aid : Nat) (now : Int),
      calculatePriorityScore (calculatePriorityScore s env aid now).2 env aid now =
        calculatePriorityScore s env aid now) ∧
    (∀ (profile : Option ProfessionalProfile) (rating rate : Option ℚ)
        (project : Option Project) (daysOld : Int),
      0 ≤ computeScore profile rating rate project daysOld ∧
        computeScore profile rating rate project daysOld ≤ 100) ∧
    (∀ (s : DB) (env : ScoreEnv) (aid : Nat) (now : Int),
      ((calculatePriorityScore s env aid now).2).apps.map (fun a => a.status) =
        s.apps.map (fun a => a.status) ∧
      ((calculatePriorityScore s env aid now).2).apps.map erasePriorityScore =
        s.apps.map erasePriorityScore ∧
      ((calculatePriorityScore s env aid now).2).projects = s.projects) := by
  refine ⟨?_, ?_, ?_⟩
  · intro s env aid now
    cases hfa : s.findApp aid with
    | none =>
      rw [calculatePriorityScore_eq s env aid now, hfa]
      simp only
      rw [calculatePriorityScore_eq s env aid now, hfa]
    | some app =>
      obtain ⟨hmem, hid⟩ := findApp_eq_some hfa
      rw [calculatePriorityScore_eq s env aid now, hfa]
      simp only
      rw [calculatePriorityScore_eq]
      have hfind2 : (s.updateApp aid (applyScoreUpdate (computeScore
          (env.profile app.professional_id) (env.averageRating app.professional_id)
          app.proposed_rate Option.none (app.getDaysOld now)))).findApp aid =
          some (applyScoreUpdate (computeScore (env.profile app.professional_id)
            (env.averageRating app.professional_id) app.proposed_rate Option.none
            (app.getDaysOld now)) app) := by
        rw [findApp_updateApp s aid aid (applyScoreUpdate (computeScore
          (env.profile app.professional_id) (env.averageRating app.professional_id)
          app.proposed_rate Option.none (app.getDaysOld now))) (fun a => rfl), hfa]
        simp only [Option.map_some']
        rw [if_pos (by simp [hid])]
      rw [hfind2]
      simp only
      rw [updateApp_score_collapse]
      rfl
  · intro profile rating rate project daysOld
    exact jsClamp_bounds _
  · intro s env aid now
    cases hfa : s.findApp aid with
    | none =>
      rw [calculatePriorityScore_eq s env aid now, hfa]
      exact ⟨rfl, rfl, rfl⟩
    | some app =>
      rw [calculatePriorityScore_eq s env aid now, hfa]
      simp only
      exact ⟨updateApp_map_eq s aid _ _ (fun a => rfl),
        updateApp_map_eq s aid _ _ (fun a => rfl), rfl⟩

/-- canBeAccepted in propositional form. -/
theorem canBeAccepted_iff (a : Application) :
    a.canBeAccepted = true ↔ (a.status = .pending ∨ a.status = .under_review) := by
  cases h : a.status <;> simp [Application.canBeAccepted, h]

/-- canBeWithdrawn in propositional form. -/
theorem canBeWithdrawn_iff (a : Application) :
    a.canBeWithdrawn = true ↔ (a.status = .pending ∨ a.status = .under_review) := by
  cases h : a.status <;> simp [Application.canBeWithdrawn, h]

/-- With pairwise distinct primary keys, equal keys mean equal rows. -/
theorem id_injective {s : DB} (hnd : AppsNodup s) {a b : Application}
    (ha : a ∈ s.apps) (hb : b ∈ s.apps) (hid : a.id = b.id) : a = b :=
  List.inj_on_of_nodup_map hnd ha hb hid

/-- The applications table a successful approve leaves behind, as one
map over the previous table. -/
theorem approve_result_apps (s : DB) (aid uid : Nat) (d : ApprovalData)
    (now : Int) (A : Application) :
    (rejectOtherApplications
      ((s.updateApp aid (applyApproveUpdate d uid now A)).updateProject
        A.project_id (applyProjectAssign d A)) A.project_id aid uid now).apps =
      s.apps.map (fun a => rejectSiblingRow A.project_id aid uid now
        (if a.id == aid then applyApproveUpdate d uid now A a else a)) := by
  unfold rejectOtherApplications DB.updateProject DB.updateApp
  simp only [List.map_map]
  rfl

/-- The projects table a successful approve leaves behind. -/
theorem approve_result_projects (s : DB) (aid uid : Nat) (d : ApprovalData)
    (now : Int) (A : Application) :
    (rejectOtherApplications
      ((s.updateApp aid (applyApproveUpdate d uid now A)).updateProject
        A.project_id (applyProjectAssign d A)) A.project_id aid uid now).projects =
      s.projects.map (fun p => if p.id == A.project_id then applyProjectAssign d A p else p) :=
  rfl

/-- Mapping a projection preserved by the row function over a mapped
table changes nothing. -/
theorem map_proj_map_eq {β : Type} (l : List Application)
    (g : Application → Application) (proj : Application → β)
    (hp : ∀ a, proj (g a) = proj a) : (l.map g).map proj = l.map proj := by
  rw [List.map_map]
  have h : (proj ∘ g) = proj := funext hp
  rw [h]

/-- The per-row approve map preserves ids, professionals and projects. -/
theorem approveRow_fields (aid uid : Nat) (d : ApprovalData) (now : Int)
    (A a : Application) :
    (rejectSiblingRow A.project_id aid uid now
      (if a.id == aid then applyApproveUpdate d uid now A a else a)).id = a.id ∧
    (rejectSiblingRow A.project_id aid uid now
      (if a.id == aid then applyApproveUpdate d uid now A a else a)).professional_id =
      a.professional_id ∧
    (rejectSiblingRow A.project_id aid uid now
      (if a.id == aid then applyApproveUpdate d uid now A a else a)).project_id =
      a.project_id := by
  by_cases h : a.id == aid <;>
    simp [h, rejectSiblingRow_id, rejectSiblingRow_professional, rejectSiblingRow_project,
      applyApproveUpdate]

/-- Under the invariant, a project that still has a pending or
under_review application has no accepted application. -/
theorem no_accepted_of_open_sibling {s : DB} (hinv : Inv s) {A : Application}
    (hA : A ∈ s.apps) (hacc : A.status = .pending ∨ A.status = .under_review) :
    ∀ c ∈ s.apps, c.project_id = A.project_id → c.status ≠ .accepted := by
  intro c hc hproj hcacc
  obtain ⟨hnd, hpair, huniq, hclosed, hprojc⟩ := hinv
  by_cases hid : A.id = c.id
  · have hEq := id_injective hnd hA hc hid
    rw [hEq] at hacc
    rcases hacc with h | h <;> rw [h] at hcacc <;> exact AppStatus.noConfusion hcacc
  · have := hclosed c hc hcacc A hA hproj.symm hid
    rcases hacc with h | h
    · exact this.1 h
    · exact this.2 h

/-- A single-row UPDATE that never writes accepted, preserves the key
columns, and — when it leaves the row pending or under_review — only
fires on rows of a project with no accepted application, preserves the
invariant. -/
theorem updateApp_inv {s : DB} (hinv : Inv s) (aid : Nat)
    (F : Application → Application)
    (hfid : ∀ a, (F a).id = a.id)
    (hfprof : ∀ a, (F a).professional_id = a.professional_id)
    (hfproj : ∀ a, (F a).project_id = a.project_id)
    (hnotacc : ∀ a, (F a).status ≠ .accepted)
    (hopen : ∀ a ∈ s.apps, a.id = aid →
      ((F a).status = .pending ∨ (F a).status = .under_review) →
      ∀ c ∈ s.apps, c.project_id = a.project_id → c.status ≠ .accepted) :
    Inv (s.updateApp aid F) := by
  obtain ⟨hnd, hpair, huniq, hclosed, hprojc⟩ := hinv
  have hGid : ∀ a : Application, ((if a.id == aid then F a else a)).id = a.id := by
    intro a; by_cases h : a.id == aid <;> simp [h, hfid]
  have hGprof : ∀ a : Application,
      ((if a.id == aid then F a else a)).professional_id = a.professional_id := by
    intro a; by_cases h : a.id == aid <;> simp [h, hfprof]
  have hGproj : ∀ a : Application,
      ((if a.id == aid then F a else a)).project_id = a.project_id := by
    intro a; by_cases h : a.id == aid <;> simp [h, hfproj]
  have happs : (s.updateApp aid F).apps =
      s.apps.map (fun a => if a.id == aid then F a else a) := rfl
  have hmem : ∀ {b : Application}, b ∈ (s.updateApp aid F).apps →
      ∃ a, a ∈ s.apps ∧ (if a.id == aid then F a else a) = b := by
    intro b hb
    rw [happs] at hb
    exact List.mem_map.mp hb
  refine ⟨?_, ?_, ?_, ?_, ?_⟩
  · show ((s.updateApp aid F).apps.map (fun a => a.id)).Nodup
    rw [updateApp_map_eq s aid F _ hfid]
    exact hnd
  · intro a2 ha2 b2 hb2 hprof2 hproj2
    obtain ⟨a, ha, hGa⟩ := hmem ha2
    obtain ⟨b, hb, hGb⟩ := hmem hb2
    rw [← hGa, ← hGb] at hprof2 hproj2 ⊢
    rw [hGid a, hGid b]
    rw [hGprof a, hGprof b] at hprof2
    rw [hGproj a, hGproj b] at hproj2
    exact hpair a ha b hb hprof2 hproj2
  · intro a2 ha2 b2 hb2 hacc2 hbcc2 hproj2
    obtain ⟨a, ha, hGa⟩ := hmem ha2
    obtain ⟨b, hb, hGb⟩ := hmem hb2
    have haU : a2 = a := by
      by_cases h : a.id == aid
      · rw [if_pos h] at hGa
        exact absurd (hGa ▸ hacc2) (hnotacc a)
      · rw [if_neg h] at hGa; exact hGa.symm
    have hbU : b2 = b := by
      by_cases h : b.id == aid
      · rw [if_pos h] at hGb
        exact absurd (hGb ▸ hbcc2) (hnotacc b)
      · rw [if_neg h] at hGb; exact hGb.symm
    subst haU
    subst hbU
    exact huniq a2 ha b2 hb hacc2 hbcc2 hproj2
  · intro a2 ha2 hacc2 b2 hb2 hproj2 hid2
    obtain ⟨a, ha, hGa⟩ := hmem ha2
    obtain ⟨b, hb, hGb⟩ := hmem hb2
    have haU : a2 = a := by
      by_cases h : a.id == aid
      · rw [if_pos h] at hGa
        exact absurd (hGa ▸ hacc2) (hnotacc a)
      · rw [if_neg h] at hGa; exact hGa.symm
    subst haU
    by_cases h : b.id == aid
    · rw [if_pos h] at hGb
      have hbeq : b.id = aid := by simpa using h
      have hab : a2.project_id = b.project_id := by
        rw [← hGb, hfproj b] at hproj2; exact hproj2.symm
      constructor <;> intro hst
      · exact hopen b hb hbeq (Or.inl (by rw [hGb]; exact hst)) a2 ha hab hacc2
      · exact hopen b hb hbeq (Or.inr (by rw [hGb]; exact hst)) a2 ha hab hacc2
    · rw [if_neg h] at hGb
      subst hGb
      exact hclosed a2 ha hacc2 b hb hproj2 hid2
  · intro a2 ha2 hacc2 p hp hpid2
    obtain ⟨a, ha, hGa⟩ := hmem ha2
    have haU : a2 = a := by
      by_cases h : a.id == aid
      · rw [if_pos h] at hGa
        exact absurd (hGa ▸ hacc2) (hnotacc a)
      · rw [if_neg h] at hGa; exact hGa.symm
    subst haU
    exact hprojc a2 ha hacc2 p hp hpid2

/-- A single-row UPDATE that preserves the key columns and the status
preserves the invariant. -/
theorem updateApp_inv_statuskeep {s : DB} (hinv : Inv s) (aid : Nat)
    (F : Application → Application)
    (hfid : ∀ a, (F a).id = a.id)
    (hfprof : ∀ a, (F a).professional_id = a.professional_id)
    (hfproj : ∀ a, (F a).project_id = a.project_id)
    (hfstat : ∀ a, (F a).status = a.status) :
    Inv (s.updateApp aid F) := by
  obtain ⟨hnd, hpair, huniq, hclosed, hprojc⟩ := hinv
  have hGid : ∀ a : Application, ((if a.id == aid then F a else a)).id = a.id := by
    intro a; by_cases h : a.id == aid <;> simp [h, hfid]
  have hGprof : ∀ a : Application,
      ((if a.id == aid then F a else a)).professional_id = a.professional_id := by
    intro a; by_cases h : a.id == aid <;> simp [h, hfprof]
  have hGproj : ∀ a : Application,
      ((if a.id == aid then F a else a)).project_id = a.project_id := by
    intro a; by_cases h : a.id == aid <;> simp [h, hfproj]
  have hGstat : ∀ a : Application,
      ((if a.id == aid then F a else a)).status = a.status := by
    intro a; by_cases h : a.id == aid <;> simp [h, hfstat]
  have hmem : ∀ {b : Application}, b ∈ (s.updateApp aid F).apps →
      ∃ a, a ∈ s.apps ∧ (if a.id == aid then F a else a) = b := by
    intro b hb
    exact List.mem_map.mp hb
  refine ⟨?_, ?_, ?_, ?_, ?_⟩
  · show ((s.updateApp aid F).apps.map (fun a => a.id)).Nodup
    rw [updateApp_map_eq s aid F _ hfid]
    exact hnd
  · intro a2 ha2 b2 hb2 hprof2 hproj2
    obtain ⟨a, ha, hGa⟩ := hmem ha2
    obtain ⟨b, hb, hGb⟩ := hmem hb2
    rw [← hGa, ← hGb] at hprof2 hproj2 ⊢
    rw [hGid a, hGid b]
    rw [hGprof a, hGprof b] at hprof2
    rw [hGproj a, hGproj b] at hproj2
    exact hpair a ha b hb hprof2 hproj2
  · intro a2 ha2 b2 hb2 hacc2 hbcc2 hproj2
    obtain ⟨a, ha, hGa⟩ := hmem ha2
    obtain ⟨b, hb, hGb⟩ := hmem hb2
    rw [← hGa] at hacc2
    rw [← hGb] at hbcc2
    rw [← hGa, ← hGb] at hproj2 ⊢
    rw [hGid a, hGid b]
    rw [hGstat a] at hacc2
    rw [hGstat b] at hbcc2
    rw [hGproj a, hGproj b] at hproj2
    exact huniq a ha b hb hacc2 hbcc2 hproj2
  · intro a2 ha2 hacc2 b2 hb2 hproj2 hid2
    obtain ⟨a, ha, hGa⟩ := hmem ha2
    obtain ⟨b, hb, hGb⟩ := hmem hb2
    rw [← hGa] at hacc2
    rw [← hGb] at hproj2 hid2 ⊢
    rw [hGstat a] at hacc2
    rw [hGstat b]
    rw [hGproj b] at hproj2
    rw [← hGa, hGproj a] at hproj2
    rw [hGid b] at hid2
    rw [← hGa, hGid a] at hid2
    exact hclosed a ha hacc2 b hb hproj2 hid2
  · intro a2 ha2 hacc2 p hp hpid2
    obtain ⟨a, ha, hGa⟩ := hmem ha2
    rw [← hGa] at hacc2 hpid2
    rw [hGstat a] at hacc2
    rw [hGproj a] at hpid2
    exact hprojc a ha hacc2 p hp hpid2

/-- A successful evaluate preserves the invariant. -/
theorem evaluate_inv {s s2 : DB} {aid uid : Nat} {d : EvalData} {now : Int}
    (hinv : Inv s) (h : evaluateApplication s aid d uid now = .ok s2) : Inv s2 := by
  obtain ⟨A, p, hfa, hacc, hfp, hc, hs2⟩ := evaluateApplication_ok h
  subst hs2
  refine updateApp_inv hinv aid _ (fun a => rfl) (fun a => rfl) (fun a => rfl) ?_ ?_
  · intro a
    simp [applyEvalUpdate]
  · intro a ha haid hstat c hcmem hcproj
    obtain ⟨hAmem, hAid⟩ := findApp_eq_some hfa
    have haA : a = A := id_injective hinv.1 ha hAmem (by rw [haid, hAid])
    exact no_accepted_of_open_sibling hinv hAmem ((canBeAccepted_iff A).mp hacc)
      c hcmem (by rw [← haA]; exact hcproj)

/-- A successful reject preserves the invariant. -/
theorem reject_inv {s s2 : DB} {aid uid : Nat} {d : RejectData} {now : Int}
    (hinv : Inv s) (h : rejectApplication s aid d uid now = .ok s2) : Inv s2 := by
  obtain ⟨A, p, hfa, hst, hfp, hc, hs2⟩ := rejectApplication_ok h
  subst hs2
  refine updateApp_inv hinv aid _ (fun a => rfl) (fun a => rfl) (fun a => rfl) ?_ ?_
  · intro a
    simp [applyRejectUpdate]
  · intro a ha haid hstat c hcmem hcproj
    simp [applyRejectUpdate] at hstat

/-- A successful withdraw preserves the invariant. -/
theorem withdraw_inv {s s2 : DB} {aid uid : Nat} {reason : Option String} {now : Int}
    (hinv : Inv s) (h : withdrawApplication s aid reason uid now = .ok s2) : Inv s2 := by
  obtain ⟨A, hfa, hw, hown, hs2⟩ := withdrawApplication_ok h
  subst hs2
  refine updateApp_inv hinv aid _ (fun a => rfl) (fun a => rfl) (fun a => rfl) ?_ ?_
  · intro a
    simp [applyWithdrawUpdate]
  · intro a ha haid hstat c hcmem hcproj
    simp [applyWithdrawUpdate] at hstat

/-- A score recomputation preserves the invariant. -/
theorem recompute_inv {s : DB} {env : ScoreEnv} {aid : Nat} {now : Int}
    (hinv : Inv s) : Inv (calculatePriorityScore s env aid now).2 := by
  rw [calculatePriorityScore_eq]
  cases hfa : s.findApp aid with
  | none => exact hinv
  | some app =>
    exact updateApp_inv_statuskeep hinv aid _ (fun a => rfl) (fun a => rfl)
      (fun a => rfl) (fun a => rfl)

/-- A successful approve preserves the invariant: the winner becomes
the project's single accepted application, every pending or
under_review sibling is rejected in the same bulk write, and the
project row leaves the open status. -/
theorem approve_inv {s s2 : DB} {aid uid : Nat} {d : ApprovalData} {now : Int}
    (hinv : Inv s) (h : approveApplication s aid d uid now = .ok s2) : Inv s2 := by
  obtain ⟨A, p, hfa, hacc, hfp, hc, hs2⟩ := approveApplication_ok h
  obtain ⟨hAmem, hAid⟩ := findApp_eq_some hfa
  have hnoacc : ∀ c ∈ s.apps, c.project_id = A.project_id → c.status ≠ .accepted :=
    no_accepted_of_open_sibling hinv hAmem ((canBeAccepted_iff A).mp hacc)
  obtain ⟨hnd, hpair, huniq, hclosed, hprojc⟩ := hinv
  subst hs2
  have happs := approve_result_apps s aid uid d now A
  have hprojs := approve_result_projects s aid uid d now A
  have hGid : ∀ a : Application, (rejectSiblingRow A.project_id aid uid now
      (if a.id == aid then applyApproveUpdate d uid now A a else a)).id = a.id :=
    fun a => (approveRow_fields aid uid d now A a).1
  have hGprof : ∀ a : Application, (rejectSiblingRow A.project_id aid uid now
      (if a.id == aid then applyApproveUpdate d uid now A a else a)).professional_id =
      a.professional_id := fun a => (approveRow_fields aid uid d now A a).2.1
  have hGproj : ∀ a : Application, (rejectSiblingRow A.project_id aid uid now
      (if a.id == aid then applyApproveUpdate d uid now A a else a)).project_id =
      a.project_id := fun a => (approveRow_fields aid uid d now A a).2.2
  have hGtarget : ∀ a : Application, a.id = aid → rejectSiblingRow A.project_id aid uid now
      (if a.id == aid then applyApproveUpdate d uid now A a else a) =
      applyApproveUpdate d uid now A a := by
    intro a haid
    rw [if_pos (by simp [haid])]
    unfold rejectSiblingRow
    rw [if_neg (by simp [applyApproveUpdate])]
  have hGother : ∀ a : Application, a.id ≠ aid → rejectSiblingRow A.project_id aid uid now
      (if a.id == aid then applyApproveUpdate d uid now A a else a) =
      rejectSiblingRow A.project_id aid uid now a := by
    intro a haid
    rw [if_neg (by simp [haid])]
  have hmem : ∀ {b : Application},
      b ∈ (rejectOtherApplications
        ((s.updateApp aid (applyApproveUpdate d uid now A)).updateProject
          A.project_id (applyProjectAssign d A)) A.project_id aid uid now).apps →
      ∃ a, a ∈ s.apps ∧ rejectSiblingRow A.project_id aid uid now
        (if a.id == aid then applyApproveUpdate d uid now A a else a) = b := by
    intro b hb
    rw [happs] at hb
    exact List.mem_map.mp hb
  -- status of an image row that came out accepted
  have hacc_src : ∀ a : Application, a ∈ s.apps →
      (rejectSiblingRow A.project_id aid uid now
        (if a.id == aid then applyApproveUpdate d uid now A a else a)).status = .accepted →
      (a.id = aid ∧ a = A) ∨ (a.id ≠ aid ∧ a.status = .accepted ∧
        a.project_id ≠ A.project_id ∧ rejectSiblingRow A.project_id aid uid now
          (if a.id == aid then applyApproveUpdate d uid now A a else a) = a) := by
    intro a ha hst
    by_cases haid : a.id = aid
    · exact Or.inl ⟨haid, id_injective hnd ha hAmem (by rw [haid, hAid])⟩
    · rw [hGother a haid] at hst ⊢
      unfold rejectSiblingRow at hst ⊢
      by_cases hcond : (a.project_id == A.project_id && !(a.id == aid) &&
          (a.status == AppStatus.pending || a.status == AppStatus.under_review)) = true
      · rw [if_pos hcond] at hst
        exact absurd hst (by simp)
      · rw [if_neg hcond] at hst ⊢
        refine Or.inr ⟨haid, hst, ?_, rfl⟩
        intro hproj
        exact hnoacc a ha hproj hst
  refine ⟨?_, ?_, ?_, ?_, ?_⟩
  · show ((rejectOtherApplications _ A.project_id aid uid now).apps.map (fun a => a.id)).Nodup
    rw [happs, map_proj_map_eq s.apps _ _ hGid]
    exact hnd
  · intro a2 ha2 b2 hb2 hprof2 hproj2
    obtain ⟨a, ha, hGa⟩ := hmem ha2
    obtain ⟨b, hb, hGb⟩ := hmem hb2
    rw [← hGa, ← hGb] at hprof2 hproj2 ⊢
    rw [hGid a, hGid b]
    rw [hGprof a, hGprof b] at hprof2
    rw [hGproj a, hGproj b] at hproj2
    exact hpair a ha b hb hprof2 hproj2
  · intro a2 ha2 b2 hb2 hacc2 hbcc2 hproj2
    obtain ⟨a, ha, hGa⟩ := hmem ha2
    obtain ⟨b, hb, hGb⟩ := hmem hb2
    rw [← hGa] at hacc2
    rw [← hGb] at hbcc2
    rw [← hGa, ← hGb] at hproj2 ⊢
    rw [hGid a, hGid b]
    rw [hGproj a, hGproj b] at hproj2
    rcases hacc_src a ha hacc2 with ⟨haid, haA⟩ | ⟨haid, haacc, haproj, -⟩ <;>
      rcases hacc_src b hb hbcc2 with ⟨hbid, hbA⟩ | ⟨hbid, hbacc, hbproj, -⟩
    · rw [haid, hbid]
    · exact absurd (by rw [← hproj2, haA] : b.project_id = A.project_id) hbproj
    · exact absurd (by rw [hproj2, hbA] : a.project_id = A.project_id) haproj
    · exact huniq a ha b hb haacc hbacc hproj2
  · intro a2 ha2 hacc2 b2 hb2 hproj2 hid2
    obtain ⟨a, ha, hGa⟩ := hmem ha2
    obtain ⟨b, hb, hGb⟩ := hmem hb2
    rw [← hGa] at hacc2
    rw [← hGb] at hproj2 hid2 ⊢
    rw [hGid b] at hid2
    rw [hGproj b] at hproj2
    rw [← hGa, hGid a] at hid2
    rw [← hGa, hGproj a] at hproj2
    rcases hacc_src a ha hacc2 with ⟨haid, haA⟩ | ⟨haid, haacc, haproj, -⟩
    · -- winner case: a = A, siblings of A.project_id
      have hbid : b.id ≠ aid := fun hcon => hid2 (by rw [hcon, haid])
      rw [hGother b hbid]
      have hbproj : b.project_id = A.project_id := by rw [hproj2, haA]
      unfold rejectSiblingRow
      by_cases hcond : (b.project_id == A.project_id && !(b.id == aid) &&
          (b.status == AppStatus.pending || b.status == AppStatus.under_review)) = true
      · rw [if_pos hcond]
        constructor <;> intro hcc <;> exact absurd hcc (by simp)
      · rw [if_neg hcond]
        simp only [Bool.and_eq_true, Bool.or_eq_true, not_and, Bool.not_eq_true] at hcond
        have := hcond (by simp [hbproj, hbid])
        constructor <;> intro hcc <;> rw [hcc] at this <;> simp at this
    · -- a untouched accepted, its project is not A's
      by_cases hbid : b.id = aid
      · have hbA : b = A := id_injective hnd hb hAmem (by rw [hbid, hAid])
        exact absurd (by rw [← hproj2, hbA] : A.project_id = a.project_id)
          (fun hcon => haproj hcon.symm)
      · rw [hGother b hbid]
        unfold rejectSiblingRow
        by_cases hcond : (b.project_id == A.project_id && !(b.id == aid) &&
            (b.status == AppStatus.pending || b.status == AppStatus.under_review)) = true
        · rw [if_pos hcond]
          constructor <;> intro hcc <;> exact absurd hcc (by simp)
        · rw [if_neg hcond]
          exact hclosed a ha haacc b hb hproj2 hid2
  · intro a2 ha2 hacc2 p2 hp2 hpid2
    obtain ⟨a, ha, hGa⟩ := hmem ha2
    rw [← hGa] at hacc2 hpid2
    rw [hGproj a] at hpid2
    rw [hprojs] at hp2
    obtain ⟨q, hq, hq2⟩ := List.mem_map.mp hp2
    by_cases hqid : q.id == A.project_id
    · rw [if_pos hqid] at hq2
      rw [← hq2]
      intro hst
      exact ProjStatus.noConfusion hst
    · rw [if_neg hqid] at hq2
      subst hq2
      rcases hacc_src a ha hacc2 with ⟨haid, haA⟩ | ⟨haid, haacc, haproj, -⟩
      · exact absurd (by rw [hpid2, haA] : q.id = A.project_id) (by simpa using hqid)
      · exact hprojc a ha haacc q hq hpid2

/-- A successful submit preserves the invariant: the new row is pending
for an open project (hence one with no accepted application), carries a
fresh primary key, and the duplicate check rules out a second row for
the same (professional, project) pair. -/
theorem submit_inv {s s2 : DB} {pid prof newId : Nat} {d : ApplicationData} {now : Int}
    (hinv : Inv s) (hfresh : ∀ a ∈ s.apps, a.id ≠ newId)
    (h : applyToProject s pid prof d newId now = .ok s2) : Inv s2 := by
  obtain ⟨project, hfp, hopen, hdup, hown, hs2⟩ := applyToProject_ok h
  obtain ⟨hpmem, hpid⟩ := findProject_eq_some hfp
  obtain ⟨hnd, hpair, huniq, hclosed, hprojc⟩ := hinv
  subst hs2
  have hnodup := List.find?_eq_none.mp hdup
  have hnoacc2 : ∀ c ∈ s.apps, c.project_id = pid → c.status ≠ .accepted := by
    intro c hc hcp hcacc
    exact hprojc c hc hcacc project hpmem (by rw [hpid, hcp]) hopen
  have happ : ((DB.mk (s.apps ++ [newApplication pid prof d newId now])
      s.projects).updateProject pid
      (fun p => { p with application_count := p.application_count + 1 })).apps =
      s.apps ++ [newApplication pid prof d newId now] := rfl
  have hmem : ∀ {b : Application},
      b ∈ ((DB.mk (s.apps ++ [newApplication pid prof d newId now])
        s.projects).updateProject pid
        (fun p => { p with application_count := p.application_count + 1 })).apps →
      b ∈ s.apps ∨ b = newApplication pid prof d newId now := by
    intro b hb
    rw [happ] at hb
    rcases List.mem_append.mp hb with hb | hb
    · exact Or.inl hb
    · exact Or.inr (List.mem_singleton.mp hb)
  have hmemp : ∀ {p2 : Project},
      p2 ∈ ((DB.mk (s.apps ++ [newApplication pid prof d newId now])
        s.projects).updateProject pid
        (fun p => { p with application_count := p.application_count + 1 })).projects →
      ∃ q ∈ s.projects, p2.id = q.id ∧ p2.status = q.status := by
    intro p2 hp2
    obtain ⟨q, hq, hq2⟩ := List.mem_map.mp hp2
    refine ⟨q, hq, ?_⟩
    by_cases hqid : q.id == pid
    · rw [if_pos hqid] at hq2
      rw [← hq2]
      exact ⟨rfl, rfl⟩
    · rw [if_neg hqid] at hq2
      rw [← hq2]
      exact ⟨rfl, rfl⟩
  refine ⟨?_, ?_, ?_, ?_, ?_⟩
  · show ((s.apps ++ [newApplication pid prof d newId now]).map (fun a => a.id)).Nodup
    rw [List.map_append, List.nodup_append]
    refine ⟨hnd, List.nodup_singleton _, ?_⟩
    intro x hx hx2
    obtain ⟨a, ha, hax⟩ := List.mem_map.mp hx
    have hxnew : x = newId := by simpa [newApplication] using hx2
    exact hfresh a ha (by rw [hax, hxnew])
  · intro a2 ha2 b2 hb2 hprof2 hproj2
    rcases hmem ha2 with ha | ha <;> rcases hmem hb2 with hb | hb
    · exact hpair a2 ha b2 hb hprof2 hproj2
    · exfalso
      refine hnodup a2 ha ?_
      rw [hb] at hprof2 hproj2
      simp [newApplication] at hprof2 hproj2
      simp [hprof2, hproj2]
    · exfalso
      refine hnodup b2 hb ?_
      rw [ha] at hprof2 hproj2
      simp [newApplication] at hprof2 hproj2
      simp [← hprof2, ← hproj2]
    · rw [ha, hb]
  · intro a2 ha2 b2 hb2 hacc2 hbcc2 hproj2
    rcases hmem ha2 with ha | ha <;> rcases hmem hb2 with hb | hb
    · exact huniq a2 ha b2 hb hacc2 hbcc2 hproj2
    · rw [hb] at hbcc2
      exact absurd hbcc2 (by simp [newApplication])
    · rw [ha] at hacc2
      exact absurd hacc2 (by simp [newApplication])
    · rw [ha, hb]
  · intro a2 ha2 hacc2 b2 hb2 hproj2 hid2
    rcases hmem ha2 with ha | ha
    · rcases hmem hb2 with hb | hb
      · exact hclosed a2 ha hacc2 b2 hb hproj2 hid2
      · exfalso
        have hb2proj : b2.project_id = pid := by rw [hb]; rfl
        exact hnoacc2 a2 ha (by rw [← hproj2, hb2proj]) hacc2
    · rw [ha] at hacc2
      exact absurd hacc2 (by simp [newApplication])
  · intro a2 ha2 hacc2 p2 hp2 hpid2
    rcases hmem ha2 with ha | ha
    · obtain ⟨q, hq, hqid, hqst⟩ := hmemp hp2
      rw [hqst]
      exact hprojc a2 ha hacc2 q hq (by rw [← hqid, hpid2])
    · rw [ha] at hacc2
      exact absurd hacc2 (by simp [newApplication])

/-- Every core operation preserves the invariant. -/
theorem step_inv {env : ScoreEnv} {s s2 : DB} (hinv : Inv s)
    (hstep : Step env s s2) : Inv s2 := by
  cases hstep with
  | submit pid prof d newId now hfresh h => exact submit_inv hinv hfresh h
  | evaluate aid d uid now h => exact evaluate_inv hinv h
  | approve aid d uid now h => exact approve_inv hinv h
  | reject aid d uid now h => exact reject_inv hinv h
  | withdraw aid reason uid now h => exact withdraw_inv hinv h
  | recompute aid now => exact recompute_inv hinv

/-- An initial database satisfies the invariant. -/
theorem init_inv {s : DB} (h : DB.Init s) : Inv s := by
  unfold DB.Init at h
  refine ⟨?_, ?_, ?_, ?_, ?_⟩
  · show (s.apps.map (fun a => a.id)).Nodup
    rw [h]
    exact List.nodup_nil
  all_goals intro a ha
  all_goals rw [h] at ha
  all_goals cases ha

/-- The invariant holds in every reachable state. -/
theorem reachable_inv {env : ScoreEnv} {s0 s : DB} (h0 : DB.Init s0)
    (hr : Reachable env s0 s) : Inv s := by
  induction hr with
  | refl => exact init_inv h0
  | tail hreach hstep ih => exact step_inv ih hstep

/-- C2: in every state reachable from an initial database by the core
operations (submit, evaluate, approve, reject, withdraw,
recomputeScore), each project has at most one accepted application, and
whenever one is accepted every sibling application of that project is
out of pending and under_review (the cascade rejected them). -/
theorem claim_C2_accepted_uniqueness (s0 s : DB) (env : ScoreEnv)
    (h0 : DB.Init s0) (hr : Reachable env s0 s) :
    (∀ a ∈ s.apps, ∀ b ∈ s.apps, a.status = .accepted → b.status = .accepted →
      a.project_id = b.project_id → a = b) ∧
    (∀ a ∈ s.apps, a.status = .accepted → ∀ b ∈ s.apps, b.project_id = a.project_id →
      b.id ≠ a.id → b.status ≠ .pending ∧ b.status ≠ .under_review) := by
  obtain ⟨hnd, hpair, huniq, hclosed, hprojc⟩ := reachable_inv h0 hr
  constructor
  · intro a ha b hb hacc hbcc hproj
    exact id_injective hnd ha hb (huniq a ha b hb hacc hbcc hproj)
  · exact hclosed

/-- C2 witness: the empty initial database over one open project. -/
theorem claim_C2_witness :
    DB.Init (DB.mk [] [proj0]) ∧
    ((∀ a ∈ (DB.mk [] [proj0]).apps, ∀ b ∈ (DB.mk [] [proj0]).apps,
        a.status = .accepted → b.status = .accepted → a.project_id = b.project_id → a = b) ∧
     (∀ a ∈ (DB.mk [] [proj0]).apps, a.status = .accepted →
        ∀ b ∈ (DB.mk [] [proj0]).apps, b.project_id = a.project_id → b.id ≠ a.id →
          b.status ≠ .pending ∧ b.status ≠ .under_review)) :=
  ⟨rfl, claim_C2_accepted_uniqueness (DB.mk [] [proj0]) (DB.mk [] [proj0]) emptyEnv rfl
    (Reachable.refl (DB.mk [] [proj0]))⟩

/-- C7 amended: submit checks, in order: project open (else
ProjectNotOpen), application deadline not passed (else a deadline
error, even with no duplicate), no previous application by the
professional for the project in any status (else DuplicateApplication),
and not the project's own client (else an own-project error); only then
is the row created, with status pending.  Consequently at most one
application per (professionalId, projectId) pair ever exists in any
reachable state. -/
theorem claim_C7_amended_submit_order :
    (∀ (s : DB) (pid prof newId : Nat) (d : ApplicationData) (now : Int)
        (project : Project), s.findProject pid = some project →
      ((project.status == ProjStatus.«open») = false →
        applyToProject s pid prof d newId now = .error .projectNotOpen) ∧
      (project.status = .«open» →
        (match project.application_deadline with
         | some dl => decide (now > dl)
         | none => false) = true →
        applyToProject s pid prof d newId now = .error .deadlineExpired) ∧
      (∀ B, project.status = .«open» →
        (match project.application_deadline with
         | some dl => decide (now > dl)
         | none => false) = false →
        s.apps.find? (fun a => a.project_id == pid && a.professional_id == prof) = some B →
        applyToProject s pid prof d newId now = .error .duplicateApplication) ∧
      (project.status = .«open» →
        (match project.application_deadline with
         | some dl => decide (now > dl)
         | none => false) = false →
        s.apps.find? (fun a => a.project_id == pid && a.professional_id == prof) = none →
        project.client_id = prof →
        applyToProject s pid prof d newId now = .error .ownProject) ∧
      (project.status = .«open» →
        (match project.application_deadline with
         | some dl => decide (now > dl)
         | none => false) = false →
        s.apps.find? (fun a => a.project_id == pid && a.professional_id == prof) = none →
        project.client_id ≠ prof →
        ∃ s2, applyToProject s pid prof d newId now = .ok s2 ∧
          newApplication pid prof d newId now ∈ s2.apps ∧
          (newApplication pid prof d newId now).status = .pending)) ∧
    (∀ (env : ScoreEnv) (s0 s : DB), DB.Init s0 → Reachable env s0 s →
      ∀ a ∈ s.apps, ∀ b ∈ s.apps, a.professional_id = b.professional_id →
        a.project_id = b.project_id → a = b) := by
  constructor
  · intro s pid prof newId d now project hfp
    refine ⟨?_, ?_, ?_, ?_, ?_⟩
    · intro hnotopen
      unfold applyToProject
      rw [hfp]
      simp only
      rw [ite_take hnotopen]
    · intro hopen hdl
      unfold applyToProject
      rw [hfp]
      simp only
      rw [ite_skip (by simp [hopen])]
      rw [if_pos hdl]
    · intro B hopen hdl hdup
      unfold applyToProject
      rw [hfp]
      simp only
      rw [ite_skip (by simp [hopen])]
      rw [if_neg (by simp [hdl])]
      rw [hdup]
    · intro hopen hdl hdup hown
      unfold applyToProject
      rw [hfp]
      simp only
      rw [ite_skip (by simp [hopen])]
      rw [if_neg (by simp [hdl])]
      rw [hdup]
      simp only
      rw [if_pos (by simp [hown])]
    · intro hopen hdl hdup hown
      refine ⟨(DB.mk (s.apps ++ [newApplication pid prof d newId now])
        s.projects).updateProject pid
        (fun p => { p with application_count := p.application_count + 1 }), ?_, ?_, rfl⟩
      · unfold applyToProject
        rw [hfp]
        simp only
        rw [ite_skip (by simp [hopen])]
        rw [if_neg (by simp [hdl])]
        rw [hdup]
        simp only
        rw [if_neg (by simpa using hown)]
      · show newApplication pid prof d newId now ∈
          ((DB.mk (s.apps ++ [newApplication pid prof d newId now])
            s.projects).updateProject pid
            (fun p => { p with application_count := p.application_count + 1 })).apps
        exact List.mem_append.mpr (Or.inr (List.mem_singleton.mpr rfl))
  · intro env s0 s h0 hr
    obtain ⟨hnd, hpair, -, -, -⟩ := reachable_inv h0 hr
    intro a ha b hb hprof hproj
    exact id_injective hnd ha hb (hpair a ha b hb hprof hproj)

/-- C7 witness: on an open project with no applications and no deadline
the success branch fires and creates the pending row; the initial empty
database instantiates the uniqueness conjunct. -/
theorem claim_C7_amended_witness :
    (∃ s2, applyToProject (DB.mk [] [proj0]) 100 10
        ⟨"Shallow cover letter text", some 800, Option.none, Option.none⟩ 7 0 = .ok s2 ∧
      newApplication 100 10 ⟨"Shallow cover letter text", some 800, Option.none, Option.none⟩ 7 0 ∈ s2.apps ∧
      (newApplication 100 10 ⟨"Shallow cover letter text", some 800, Option.none, Option.none⟩ 7 0).status = .pending) ∧
    DB.Init (DB.mk [] [proj0]) :=
  ⟨((claim_C7_amended_submit_order.1 (DB.mk [] [proj0]) 100 10 7
      ⟨"Shallow cover letter text", some 800, Option.none, Option.none⟩ 0 proj0
      rfl).2.2.2.2) rfl rfl rfl (by decide), rfl⟩

end Destored
